import Mathlib

/-!
# Verification of the slicer_tools preset inheritance and differencing engine

This file gives a shallow embedding in Lean 4 of the core of
`src/slicer_tools.py` (Bambu Studio slicer preset tools):

* Python `dict` values are modelled as insertion-ordered association lists
  (`List (key × value)`).  `d[k] = v` is `dictInsert` (replace in place, append
  if absent), `d |= e` is `dictUnion`, and `dict(sorted(d.items()))` is
  `sortDict` (a stable merge sort on the key — the value is never compared
  because keys in a Python dict are unique).
* The data model (`PresetType`, `PresetGroup`, `NodeMetadata`, `PresetPath`,
  `PresetNode`, `AllNodeSettings`, `DiffType`, `DiffValue`, `DiffMatrix`,
  `CellInfo`) is translated field by field.
* `ProjectPresets.all_node_settings` (the inheritance roll-up) is translated
  as a fuel-indexed recursion: the Python `while` loop does not terminate on a
  cyclic `inherits` chain, so the model returns an `outOfFuel` error in that
  case; all theorems quantify over a sufficient fuel.
* File I/O (lazy loading of preset files, archive reading, BBL.json parsing)
  is out of scope; registry nodes carry their (already loaded) settings
  dictionary directly.

Theorems about the claims follow the definitions.
-/

namespace SlicerTools

/-! ## Association lists modelling Python dicts -/

/-- Lookup in an insertion-ordered association list (Python `d[k]` /
`k in d`): return the value of the first entry whose key matches. -/
def alookup {α β : Type} [DecidableEq α] : List (α × β) → α → Option β
  | [], _ => none
  | (k, v) :: rest, key => if k = key then some v else alookup rest key

/-- Python `d[k] = v`: replace the value of an existing key in place
(keeping its position in the insertion order), or append a new entry. -/
def dictInsert {α β : Type} [DecidableEq α] : List (α × β) → α → β → List (α × β)
  | [], key, val => [(key, val)]
  | (k, v) :: rest, key, val =>
    if k = key then (key, val) :: rest else (k, v) :: dictInsert rest key val

/-- Python `d |= e` (and also any loop `for k, v in e: d[k] = v`):
insert every entry of `e` into `d` in order, rightmost wins. -/
def dictUnion {α β : Type} [DecidableEq α] (d e : List (α × β)) : List (α × β) :=
  e.foldl (fun acc p => dictInsert acc p.1 p.2) d

/-- The keys of an association list. -/
def dkeys {α β : Type} (d : List (α × β)) : List α := d.map Prod.fst

/-! ## Sorting a dict (Python `dict(sorted(d.items()))`)

Python `sorted` on `(key, value)` tuples compares the keys first and only
compares values on equal keys; since dict keys are unique the values are
never compared, so this is a plain stable sort by the key. -/

/-- `dict(sorted(d.items()))`. -/
def sortDict {β : Type} (d : List (String × β)) : List (String × β) :=
  d.mergeSort (fun a b => decide (a.1 ≤ b.1))

/-! ## Merging a chain of settings dicts

`all_node_settings` collects the per-node settings dictionaries leaf-to-root
and then merges them with `working |= node` over the reversed list
("merge root to leaf, child wins"). -/

/-- The merge loop of `all_node_settings`:
`working = {}; for node in reversed(nodes): working |= node`. -/
def mergeSettings {β : Type} (nodes : List (List (String × β))) : List (String × β) :=
  nodes.reverse.foldl (fun working node => dictUnion working node) []

/-- The first (most specific, leaf-most) dictionary in the chain that binds a
key provides its value. -/
def chainLookup {β : Type} : List (List (String × β)) → String → Option β
  | [], _ => none
  | d :: rest, k => (alookup d k).orElse (fun _ => chainLookup rest k)

/-! ## Index enumeration (Python `enumerate` feeding `d[key] = i` loops)

Both index-assignment loops of `DiffMatrix._reset_lookups` write an
increasing counter into an existing dict.  The sequence of `d[key] = i`
assignments is exactly a `dictUnion` with the list `enumFromPairs i keys`. -/

/-- `[(l[0], i), (l[1], i+1), ...]`. -/
def enumFromPairs {α : Type} : Int → List α → List (α × Int)
  | _, [] => []
  | i, a :: t => (a, i) :: enumFromPairs (i + 1) t

/-! ## Data model (`slicer_tools.py` enums, named tuples and constants) -/

/-- Preset types used by Bambu Studio (`class PresetType(StrEnum)`). -/
inductive PresetType where
  | FILAMENT
  | MACHINE
  | PROCESS
deriving DecidableEq, Repr

/-- Preset groups used by Bambu Studio (`class PresetGroup(StrEnum)`). -/
inductive PresetGroup where
  | OVERRIDE
  | PROJECT
  | USER
  | SYSTEM
deriving DecidableEq, Repr

/-- The `StrEnum` string value of a `PresetGroup` member. -/
def PresetGroup.val : PresetGroup → String
  | .OVERRIDE => "override"
  | .PROJECT => "project"
  | .USER => "user"
  | .SYSTEM => "system"

/-- `NodeMetadata` named tuple. -/
structure NodeMetadata where
  name : String
  filename : String
  group : PresetGroup
  preset_type : PresetType
  override_inherits : String := ""
deriving DecidableEq, Repr

/-- `PresetPath` named tuple: the registry key (type, preset name). -/
structure PresetPath where
  type : PresetType
  preset_name : String
deriving DecidableEq, Repr

/-- `SettingValue = str | list[str]` (the two JSON value shapes the source
declares; `isinstance(values, list)` distinguishes them). -/
inductive SettingValue where
  | str : String → SettingValue
  | strs : List String → SettingValue
deriving DecidableEq, Repr

/-- `SettingsDict = dict[str, SettingValue]`, as an insertion-ordered
association list. -/
abbrev SettingsDict := List (String × SettingValue)

/-- Key constants from the source. -/
def INHERITS : String := "inherits"

def FROM : String := "from"

def NAME : String := "name"

def VERSION : String := "version"

/-- A preset node whose settings are available (in the source, `PresetNode`
after its `settings` property has produced the dictionary; file-backed lazy
loading is I/O and out of scope, so registry nodes carry their settings
directly). -/
structure PresetNode where
  metadata : NodeMetadata
  settings : SettingsDict
deriving DecidableEq, Repr

/-- The constructor arguments and stored fields of `PresetNode.__init__`
(`settings=None` means "lazy load from `path` later"). -/
structure PresetNodeInit where
  metadata : NodeMetadata
  path : Option String
  settings : Option SettingsDict
  user_base_fix : Bool
deriving DecidableEq, Repr

/-- `PresetNode.__init__`: store settings and path, force the group to
`SYSTEM` when `user_base_fix` is set, and raise `ValueError` when both
`settings` and `path` are `None`. -/
def presetNodeInit (metadata : NodeMetadata) (settings : Option SettingsDict)
    (path : Option String) (user_base_fix : Bool) : Except String PresetNodeInit :=
  let md := if user_base_fix then { metadata with group := .SYSTEM } else metadata
  if settings = none ∧ path = none then
    .error "Settings and path arguments cannot both be None for a PresetNode()"
  else
    .ok ⟨md, path, settings, user_base_fix⟩

/-! ## Node registry (`ProjectPresets`)

The class-level `_shared_nodes` dict and the per-instance `_project_nodes`
dict, both keyed by `PresetPath`. -/

structure ProjectPresets where
  shared_nodes : List (PresetPath × PresetNode)
  project_nodes : List (PresetPath × PresetNode)
deriving DecidableEq, Repr

/-- `ProjectPresets._node`: look the key up in the shared scope, then in the
project scope; `None` models the `KeyError` for an undefined preset. -/
def ProjectPresets.node? (pp : ProjectPresets) (preset_type : PresetType)
    (name : String) : Option PresetNode :=
  match alookup pp.shared_nodes ⟨preset_type, name⟩ with
  | some n => some n
  | none => alookup pp.project_nodes ⟨preset_type, name⟩

/-- `ProjectPresets.add_project_node`.  The pair returned is (state after the
call, optional raised error message): Python raises `KeyError` before any
mutation, so on a collision the state comes back unchanged. -/
def ProjectPresets.add_project_node (pp : ProjectPresets) (metadata : NodeMetadata)
    (settings : SettingsDict) : ProjectPresets × Option String :=
  let key : PresetPath := ⟨metadata.preset_type, metadata.name⟩
  if (alookup pp.shared_nodes key).isSome then
    (pp, some "Attempt to add project preset with the same name as a system preset.")
  else if (alookup pp.project_nodes key).isSome then
    (pp, some "Attempt to add project preset when preset already exists.")
  else
    ({ pp with project_nodes := dictInsert pp.project_nodes key ⟨metadata, settings⟩ },
      none)

/-! ## Inheritance resolver (`ProjectPresets.all_node_settings`) -/

/-- Resolver result (`AllNodeSettings` named tuple). -/
structure AllNodeSettings where
  metadata : NodeMetadata
  ref_metadata : Option NodeMetadata
  source_subtree : SettingsDict
  reference_subtree : SettingsDict
deriving DecidableEq, Repr

/-- The error paths of the resolver.  `outOfFuel` stands for the Python
`while` loop spinning forever on a cyclic `inherits` chain. -/
inductive ResolveErr where
  | bothRefs
  | notFound (t : PresetType) (name : String)
  | inheritsNotHashable (t : PresetType)
  | brokenInvariant
  | outOfFuel
deriving DecidableEq, Repr

/-- The reference-boundary test of the walk:
`(ref_group and this_node.metadata.group == ref_group) or
(this_node.metadata.name == ref_node)` (a `None` `ref_group` is falsy). -/
def isRefBoundary (ref_node : String) (ref_group : Option PresetGroup)
    (md : NodeMetadata) : Bool :=
  (match ref_group with
   | some g => md.group == g
   | none => false) || (md.name == ref_node)

/-- Reading `this_node.settings[INHERITS]`: an absent key is "no parent";
a string is the parent name; an empty list is falsy, so also "no parent";
a non-empty list would be used as a dict key and raise `TypeError`. -/
def inheritsOf (t : PresetType) (d : SettingsDict) : Except ResolveErr String :=
  match alookup d INHERITS with
  | none => .ok ""
  | some (.str s) => .ok s
  | some (.strs l) => if l.isEmpty then .ok "" else .error (.inheritsNotHashable t)

/-- The `while this_node:` loop of `all_node_settings`.  Returns the
reference metadata and the two collected lists of per-node settings dicts
(in visit order, i.e. leaf to root; Python appends to whichever list
`target` points at). -/
def resolveLoop (pp : ProjectPresets) (preset_type : PresetType)
    (ref_node : String) (ref_group : Option PresetGroup) :
    Nat → PresetNode → Option NodeMetadata →
    Except ResolveErr (Option NodeMetadata × List SettingsDict × List SettingsDict)
  | 0, _, _ => .error .outOfFuel
  | fuel + 1, this_node, ref_metadata =>
    -- switch to gathering reference nodes *before* appending this node's own
    -- settings, so the boundary node's settings land in the reference list
    let ref_metadata' :=
      if ref_metadata.isNone ∧ isRefBoundary ref_node ref_group this_node.metadata then
        some this_node.metadata
      else ref_metadata
    match inheritsOf preset_type this_node.settings with
    | .error e => .error e
    | .ok inh =>
      if inh = "" then
        if ref_metadata'.isSome then .ok (ref_metadata', [], [this_node.settings])
        else .ok (ref_metadata', [this_node.settings], [])
      else
        match pp.node? preset_type inh with
        | none => .error (.notFound preset_type inh)
        | some parent =>
          match resolveLoop pp preset_type ref_node ref_group fuel parent ref_metadata' with
          | .error e => .error e
          | .ok (rm, src, refs) =>
            if ref_metadata'.isSome then .ok (rm, src, this_node.settings :: refs)
            else .ok (rm, this_node.settings :: src, refs)

/-- `ProjectPresets.all_node_settings(preset_type, node_name, ref_node="",
ref_group=None)`. -/
def ProjectPresets.all_node_settings (pp : ProjectPresets) (preset_type : PresetType)
    (node_name : String) (ref_node : String) (ref_group : Option PresetGroup)
    (fuel : Nat) : Except ResolveErr AllNodeSettings :=
  if ref_group.isSome ∧ ref_node ≠ "" then
    .error .bothRefs
  else
    match pp.node? preset_type node_name with
    | none => .error (.notFound preset_type node_name)
    | some this_node =>
      match resolveLoop pp preset_type ref_node ref_group fuel this_node none with
      | .error e => .error e
      | .ok (ref_metadata, settings_nodes, reference_nodes) =>
        let settings := sortDict (mergeSettings settings_nodes)
        let reference := sortDict (mergeSettings reference_nodes)
        if reference.length ≠ 0 ∧ ref_metadata.isNone then
          .error .brokenInvariant
        else
          .ok ⟨this_node.metadata, ref_metadata, settings, reference⟩

/-- The bare inheritance chain from a node to the root (the node itself
first), following the same `inherits` steps as `resolveLoop` but without
the reference split.  Used to state chain-level properties. -/
def walkChain (pp : ProjectPresets) (preset_type : PresetType) :
    Nat → PresetNode → Except ResolveErr (List PresetNode)
  | 0, _ => .error .outOfFuel
  | fuel + 1, this_node =>
    match inheritsOf preset_type this_node.settings with
    | .error e => .error e
    | .ok inh =>
      if inh = "" then .ok [this_node]
      else
        match pp.node? preset_type inh with
        | none => .error (.notFound preset_type inh)
        | some parent =>
          match walkChain pp preset_type fuel parent with
          | .error e => .error e
          | .ok chain => .ok (this_node :: chain)

/-! ## Diff matrix (`DiffMatrix`) -/

/-- Difference types (`class DiffType(Enum)`). -/
inductive DiffType where
  | NO_DIFF
  | REFERENCE
  | DIFFERENCE
  | OVERRIDE
  | UNSET
  | COMPLEX
deriving DecidableEq, Repr

/-- Builtin Excel cell formats (`class CellFormat(StrEnum)`). -/
inductive CellFormat where
  | NORMAL
  | GOOD
  | BAD
  | INPUT
  | NOTE
  | NEUTRAL
  | HEADING4
deriving DecidableEq, Repr

/-- The `format` field of `CellInfo` is `DiffType | CellFormat`. -/
inductive CellFmt where
  | diff : DiffType → CellFmt
  | fmt : CellFormat → CellFmt
deriving DecidableEq, Repr

/-- `CellInfo` named tuple (row, column, value, format). -/
structure CellInfo where
  row : Int
  column : Int
  value : String
  format : CellFmt
deriving DecidableEq, Repr

/-- `DiffValuePath` named tuple: key for the sparse value store. -/
structure DiffValuePath where
  row_name : String
  metadata : NodeMetadata
deriving DecidableEq, Repr

/-- `DiffValue` named tuple. -/
structure DiffValue where
  value : String
  type : DiffType
deriving DecidableEq, Repr

/-- `DiffMatrix` state: `_rows`, `_cols`, `_values`, `_reset_required`. -/
structure DiffMatrix where
  rows : List (String × Int)
  cols : List (NodeMetadata × Int)
  values : List (DiffValuePath × DiffValue)
  reset_required : Bool
deriving DecidableEq, Repr

/-- `_header_count = 3` (group, filename, preset name). -/
def DiffMatrix.header_count : Int := 3

/-- `DiffMatrix.__init__`. -/
def DiffMatrix.init : DiffMatrix := ⟨[], [], [], true⟩

/-- `DiffMatrix.column_exits` (sic): pure membership test. -/
def DiffMatrix.column_exits (m : DiffMatrix) (metadata : NodeMetadata) : Bool :=
  (alookup m.cols metadata).isSome

/-- `DiffMatrix.add_value`: insert or overwrite one cell, register its row
and column with a `-1` placeholder index, and mark the matrix dirty. -/
def DiffMatrix.add_value (m : DiffMatrix) (row_name : String)
    (column_id : NodeMetadata) (value : String) (value_type : DiffType) : DiffMatrix :=
  { rows := dictInsert m.rows row_name (-1),
    cols := dictInsert m.cols column_id (-1),
    values := dictInsert m.values ⟨row_name, column_id⟩ ⟨value, value_type⟩,
    reset_required := true }

/-- The fixed column-group priority used by `_reset_lookups`. -/
def groupPriority : List PresetGroup := [.SYSTEM, .OVERRIDE, .PROJECT, .USER]

/-- The row half of `DiffMatrix._reset_lookups`:
`for i, key in enumerate(sorted(keys)): self._rows[key] = i`. -/
def resetRows (rows : List (String × Int)) : List (String × Int) :=
  dictUnion rows (enumFromPairs 0 ((dkeys rows).mergeSort (fun a b => decide (a ≤ b))))

/-- The column half of `DiffMatrix._reset_lookups`: iterate the groups in
priority order and, within each group, the columns in insertion order,
assigning an increasing counter.  (The Python loop mutates only the dict's
values, so the iterated key list stays the original insertion order.) -/
def resetCols (cols : List (NodeMetadata × Int)) : List (NodeMetadata × Int) :=
  (groupPriority.foldl
    (fun (acc : List (NodeMetadata × Int) × Int) group =>
      (dkeys cols).foldl
        (fun acc2 key =>
          if key.group = group then (dictInsert acc2.1 key acc2.2, acc2.2 + 1)
          else acc2)
        acc)
    (cols, 0)).1

/-- `DiffMatrix._reset_lookups` (it does not clear `_reset_required`). -/
def DiffMatrix.reset_lookups (m : DiffMatrix) : DiffMatrix :=
  { m with rows := resetRows m.rows, cols := resetCols m.cols }

/-- `DiffMatrix.table_cells`: the ordered traversal, as the list of yielded
cells — three header-name cells, one label cell per row, three header cells
per column, then one cell per stored value.  (`self._rows[key]` cannot miss
for a matrix built through `add_value`; the model totalises the lookup with
`getD 0`.) -/
def DiffMatrix.table_cells (m0 : DiffMatrix) : List CellInfo :=
  let m := if m0.reset_required then m0.reset_lookups else m0
  [⟨0, 0, "Group", .fmt .NORMAL⟩, ⟨1, 0, "Filename", .fmt .NORMAL⟩,
    ⟨2, 0, "Preset", .fmt .NORMAL⟩]
  ++ m.rows.map (fun rv =>
      ⟨rv.2 + DiffMatrix.header_count, 0, rv.1, .fmt .NORMAL⟩)
  ++ m.cols.flatMap (fun cv =>
      [⟨0, cv.2 + 1, cv.1.group.val, .fmt .NORMAL⟩,
       ⟨1, cv.2 + 1, cv.1.filename, .fmt .NORMAL⟩,
       ⟨2, cv.2 + 1, cv.1.name, .fmt .NORMAL⟩])
  ++ m.values.map (fun kv =>
      ⟨(alookup m.rows kv.1.row_name).getD 0 + DiffMatrix.header_count,
       (alookup m.cols kv.1.metadata).getD 0 + 1, kv.2.value, .diff kv.2.type⟩)

/-- `DiffMatrix.row_count`: table rows including the header lines. -/
def DiffMatrix.row_count (m : DiffMatrix) : Nat := m.rows.length + 3

/-! ## Override reconstruction (`ThreeMFPresets._differences_to_settings`) -/

/-- Character-level splitter: `splitSemi s.data` is Python `s.split(";")`
(the separator in the source is the literal one-character string `";"`).
Defined by structural recursion so that concrete instances evaluate. -/
def splitSemi : List Char → List (List Char)
  | [] => [[]]
  | c :: rest =>
    let r := splitSemi rest
    if c = ';' then [] :: r
    else (c :: r.headD []) :: r.tail

/-- `diff.split(";")`. -/
def splitOnSemicolon (s : String) : List String :=
  (splitSemi s.data).map (fun cs => String.mk cs)

/-- The error paths of `_differences_to_settings`.  `shapeErr` carries the
data the `IndexError` message reports: override name, setting key, expected
length (the filament count) and actual length; `typeErr` likewise carries
the data of the `TypeError` for a non-list filament value. -/
inductive DiffSettingsErr where
  | keyNotFound (key : String)
  | typeErr (override_name key : String) (values : SettingValue)
  | shapeErr (override_name key : String) (expected actual : Nat)
  | indexErr (key : String)
deriving DecidableEq, Repr

/-- The `for key in diff_keys:` loop of `_differences_to_settings`.
Returns the settings dict as mutated so far together with the error that
stopped the loop, if any (Python raises out of the loop, leaving the
caller's dict with every entry added before the offending key). -/
def differencesLoop (project_config : SettingsDict) (value_idx : Nat)
    (metadata : NodeMetadata) (filament_count : Nat) :
    SettingsDict → List String → SettingsDict × Option DiffSettingsErr
  | settings, [] => (settings, none)
  | settings, key :: rest =>
    match alookup project_config key with
    | none => (settings, some (.keyNotFound key))
    | some values =>
      if metadata.preset_type = .FILAMENT then
        if key = "filament_notes" then
          -- always skipped with a logged warning, whatever the shape
          differencesLoop project_config value_idx metadata filament_count settings rest
        else
          match values with
          | .str _ => (settings, some (.typeErr metadata.name key values))
          | .strs vs =>
            if vs.length ≠ filament_count then
              (settings, some (.shapeErr metadata.name key filament_count vs.length))
            else
              match vs[value_idx]? with
              | none => (settings, some (.indexErr key))
              | some v =>
                differencesLoop project_config value_idx metadata filament_count
                  (dictInsert settings key (.str v)) rest
      else
        -- machine/process: unexpected shapes are only warned about and the
        -- value is stored either way
        differencesLoop project_config value_idx metadata filament_count
          (dictInsert settings key values) rest

/-- `ThreeMFPresets._differences_to_settings`: split the difference
descriptor on `;`; an empty first element means "no overrides at all" and
returns at once; otherwise process each named key in order. -/
def differences_to_settings (project_config : SettingsDict) (value_idx : Nat)
    (diff : String) (settings : SettingsDict) (metadata : NodeMetadata)
    (filament_count : Nat) : SettingsDict × Option DiffSettingsErr :=
  let diff_keys := splitOnSemicolon diff
  if (diff_keys.headD "") = "" then (settings, none)
  else differencesLoop project_config value_idx metadata filament_count settings diff_keys

/-! ## Derived notions used to state the claims -/

/-- The column order `_reset_lookups` realises: groups in the fixed priority
order system, override, project, user, and insertion order within a group. -/
def colOrder (keys : List NodeMetadata) : List NodeMetadata :=
  keys.filter (fun k => k.group == .SYSTEM)
    ++ keys.filter (fun k => k.group == .OVERRIDE)
    ++ keys.filter (fun k => k.group == .PROJECT)
    ++ keys.filter (fun k => k.group == .USER)

/-- A difference key that `_differences_to_settings` processes without
raising for a filament override: either the always-skipped notes key, or a
list value of exactly the filament count with the wanted position in range. -/
def filamentKeyOk (project_config : SettingsDict) (filament_count value_idx : Nat)
    (key : String) : Bool :=
  match alookup project_config key with
  | none => false
  | some values =>
    key == "filament_notes" ||
      match values with
      | .strs vs => vs.length == filament_count && decide (value_idx < vs.length)
      | .str _ => false

/-- Well-formedness of a `DiffMatrix` reachable through `add_value`: the three
dicts have unique keys, and every stored value's row and column are
registered. -/
def DiffMatrix.WF (m : DiffMatrix) : Prop :=
  (dkeys m.rows).Nodup ∧ (dkeys m.cols).Nodup ∧ (dkeys m.values).Nodup ∧
    ∀ p ∈ dkeys m.values, p.row_name ∈ dkeys m.rows ∧ p.metadata ∈ dkeys m.cols

/-! ## Concrete instances used by witnesses and counterexamples -/

def mdC8w : NodeMetadata := ⟨"alpha", "p.3mf", .PROJECT, .PROCESS, ""⟩

def ppC8w : ProjectPresets :=
  ⟨[], [(⟨.PROCESS, "alpha"⟩, ⟨mdC8w, [("k", .str "v")]⟩)]⟩

def rC8w : AllNodeSettings := ⟨mdC8w, some mdC8w, [], [("k", .str "v")]⟩

def mdC3w : NodeMetadata := ⟨"beta", "p.3mf", .PROJECT, .PROCESS, ""⟩

def ppC3w : ProjectPresets :=
  ⟨[], [(⟨.PROCESS, "beta"⟩, ⟨mdC3w, [("k", .str "v")]⟩)]⟩

def mdC3x : NodeMetadata := ⟨"", "p.3mf", .PROJECT, .PROCESS, ""⟩

def ppC3x : ProjectPresets :=
  ⟨[], [(⟨.PROCESS, ""⟩, ⟨mdC3x, [("k", .str "v")]⟩)]⟩

def rC3x : AllNodeSettings := ⟨mdC3x, some mdC3x, [], [("k", .str "v")]⟩

def mdC2x : NodeMetadata := ⟨"", "p.3mf", .PROJECT, .PROCESS, ""⟩

def mdC2xp : NodeMetadata := ⟨"par", "p.3mf", .PROJECT, .PROCESS, ""⟩

def sC2x : SettingsDict := [("k", .str "child"), (INHERITS, .str "par")]

def sC2xp : SettingsDict := [("k", .str "parent")]

def ppC2x : ProjectPresets :=
  ⟨[], [(⟨.PROCESS, ""⟩, ⟨mdC2x, sC2x⟩), (⟨.PROCESS, "par"⟩, ⟨mdC2xp, sC2xp⟩)]⟩

def rC2x : AllNodeSettings :=
  ⟨mdC2x, some mdC2x, [], [(INHERITS, .str "par"), ("k", .str "child")]⟩

def mdC2w : NodeMetadata := ⟨"kid", "p.3mf", .PROJECT, .PROCESS, ""⟩

def mdC2wp : NodeMetadata := ⟨"par", "p.3mf", .PROJECT, .PROCESS, ""⟩

def sC2w : SettingsDict := [("k", .str "child"), (INHERITS, .str "par")]

def sC2wp : SettingsDict := [("k", .str "parent")]

def ppC2w : ProjectPresets :=
  ⟨[], [(⟨.PROCESS, "kid"⟩, ⟨mdC2w, sC2w⟩), (⟨.PROCESS, "par"⟩, ⟨mdC2wp, sC2wp⟩)]⟩

def nodeC1A : PresetNode :=
  ⟨⟨"A", "p.3mf", .PROJECT, .PROCESS, ""⟩, [(INHERITS, .str "B")]⟩

def nodeC1B : PresetNode :=
  ⟨⟨"B", "p.3mf", .PROJECT, .PROCESS, ""⟩, [("kb", .str "vb"), (INHERITS, .str "C")]⟩

def nodeC1C : PresetNode :=
  ⟨⟨"C", "s.json", .SYSTEM, .PROCESS, ""⟩, [("kc", .str "vc")]⟩

def mdC4w : NodeMetadata := ⟨"dup", "p.3mf", .PROJECT, .PROCESS, ""⟩

def ppC4w : ProjectPresets :=
  ⟨[], [(⟨.PROCESS, "dup"⟩, ⟨mdC4w, [("k", .str "v")]⟩)]⟩

def mdC9x : NodeMetadata := ⟨"node", "f.json", .USER, .PROCESS, ""⟩

def cfgC10w : SettingsDict := [("key_a", .strs ["x", "y"])]

def baseC10w : SettingsDict :=
  [(NAME, .str "ov_abcd"), (INHERITS, .str "ov"), (FROM, .str "project"),
   (VERSION, .str "1")]

def mdC10w : NodeMetadata := ⟨"ov_abcd", "p.3mf", .OVERRIDE, .FILAMENT, "ov"⟩

def cfgC5w : SettingsDict := [("bad_key", .strs ["a"])]

def baseC5w : SettingsDict := [(NAME, .str "ov_ab")]

def mdC5w : NodeMetadata := ⟨"ov_ab", "p.3mf", .OVERRIDE, .FILAMENT, "ov"⟩

def mdC6w : NodeMetadata := ⟨"col", "p.3mf", .PROJECT, .PROCESS, ""⟩

def muC7w : NodeMetadata := ⟨"u", "u.json", .USER, .PROCESS, ""⟩

def msC7w : NodeMetadata := ⟨"s", "s.json", .SYSTEM, .PROCESS, ""⟩

def moC7w : NodeMetadata := ⟨"o", "p.3mf", .OVERRIDE, .PROCESS, ""⟩

def mpC7w : NodeMetadata := ⟨"p", "p.3mf", .PROJECT, .PROCESS, ""⟩

def mC7w : DiffMatrix :=
  ⟨[], [(muC7w, -1), (msC7w, -1), (moC7w, -1), (mpC7w, -1)], [], true⟩

/-! # Theorems -/

@[simp] theorem dkeys_nil {α β : Type} : dkeys ([] : List (α × β)) = [] := rfl

@[simp] theorem dkeys_cons {α β : Type} (p : α × β) (d : List (α × β)) :
    dkeys (p :: d) = p.1 :: dkeys d := rfl

theorem alookup_dictInsert {α β : Type} [DecidableEq α]
    (d : List (α × β)) (k : α) (v : β) (key : α) :
    alookup (dictInsert d k v) key = if k = key then some v else alookup d key := by
  induction d with
  | nil => simp [dictInsert, alookup]
  | cons p rest ih =>
    obtain ⟨k', v'⟩ := p
    by_cases h1 : k' = k
    · subst h1
      by_cases h2 : k' = key <;> simp [dictInsert, alookup, h2]
    · by_cases h2 : k' = key
      · have h3 : ¬ k = key := fun hh => h1 (h2.trans hh.symm)
        have h4 : ¬ key = k := fun hh => h3 hh.symm
        simp [dictInsert, h1, alookup, h2, h3, h4]
      · simp [dictInsert, h1, alookup, h2, ih]

theorem dkeys_dictInsert {α β : Type} [DecidableEq α]
    (d : List (α × β)) (k : α) (v : β) :
    dkeys (dictInsert d k v) =
      if k ∈ dkeys d then dkeys d else dkeys d ++ [k] := by
  induction d with
  | nil => simp [dictInsert]
  | cons p rest ih =>
    obtain ⟨k', v'⟩ := p
    by_cases h : k' = k
    · subst h
      simp [dictInsert]
    · have h' : ¬ k = k' := fun hh => h hh.symm
      by_cases h2 : k ∈ dkeys rest <;>
        simp [dictInsert, h, ih, h2, h']

theorem mem_dkeys_dictInsert {α β : Type} [DecidableEq α]
    (d : List (α × β)) (k : α) (v : β) (a : α) :
    a ∈ dkeys (dictInsert d k v) ↔ a ∈ dkeys d ∨ a = k := by
  rw [dkeys_dictInsert]
  by_cases h : k ∈ dkeys d <;> simp [h]
  intro ha
  subst ha
  tauto

theorem nodup_dkeys_dictInsert {α β : Type} [DecidableEq α]
    (d : List (α × β)) (k : α) (v : β) (hd : (dkeys d).Nodup) :
    (dkeys (dictInsert d k v)).Nodup := by
  rw [dkeys_dictInsert]
  by_cases h : k ∈ dkeys d <;> simp [h, hd, List.nodup_append]

theorem alookup_eq_none_iff {α β : Type} [DecidableEq α] (d : List (α × β)) (k : α) :
    alookup d k = none ↔ k ∉ dkeys d := by
  induction d with
  | nil => simp [alookup]
  | cons p rest ih =>
    obtain ⟨k', v'⟩ := p
    by_cases h : k' = k
    · subst h
      simp [alookup]
    · have h' : ¬ k = k' := fun hh => h hh.symm
      simp [alookup, h, h', ih]

theorem alookup_isSome_iff {α β : Type} [DecidableEq α] (d : List (α × β)) (k : α) :
    (alookup d k).isSome ↔ k ∈ dkeys d := by
  rcases h : alookup d k with _ | v
  · simpa [h] using (alookup_eq_none_iff d k).1 h
  · simp only [Option.isSome_some, true_iff]
    by_contra hmem
    rw [(alookup_eq_none_iff d k).2 hmem] at h
    cases h

theorem alookup_dictUnion {α β : Type} [DecidableEq α]
    (d e : List (α × β)) (he : (dkeys e).Nodup) (key : α) :
    alookup (dictUnion d e) key = (alookup e key).orElse (fun _ => alookup d key) := by
  induction e generalizing d with
  | nil => simp [dictUnion, alookup]
  | cons p rest ih =>
    obtain ⟨k', v'⟩ := p
    have hcons := List.nodup_cons.1 (by simpa using he)
    have he' : (dkeys rest).Nodup := hcons.2
    have hk' : k' ∉ dkeys rest := hcons.1
    have step : dictUnion d ((k', v') :: rest) = dictUnion (dictInsert d k' v') rest := rfl
    rw [step, ih _ he']
    by_cases h : k' = key
    · subst h
      have hnone : alookup rest k' = none := (alookup_eq_none_iff rest k').2 hk'
      simp [alookup, hnone, alookup_dictInsert]
    · simp [alookup, h, alookup_dictInsert]

theorem nodup_dkeys_dictUnion {α β : Type} [DecidableEq α]
    (d e : List (α × β)) (hd : (dkeys d).Nodup) :
    (dkeys (dictUnion d e)).Nodup := by
  induction e generalizing d with
  | nil => simpa [dictUnion]
  | cons p rest ih =>
    have step : dictUnion d (p :: rest) = dictUnion (dictInsert d p.1 p.2) rest := rfl
    rw [step]
    exact ih _ (nodup_dkeys_dictInsert d p.1 p.2 hd)

theorem alookup_of_perm {α β : Type} [DecidableEq α]
    {l l' : List (α × β)} (hp : l.Perm l') (hn : (dkeys l).Nodup) (k : α) :
    alookup l k = alookup l' k := by
  induction hp with
  | nil => rfl
  | cons x _ ih =>
    obtain ⟨k', v'⟩ := x
    have hcons := List.nodup_cons.1 (by simpa using hn)
    simp [alookup, ih hcons.2]
  | swap x y l =>
    obtain ⟨k1, v1⟩ := x
    obtain ⟨k2, v2⟩ := y
    have hn' : (¬k2 = k1 ∧ k2 ∉ dkeys l) ∧ k1 ∉ dkeys l ∧ (dkeys l).Nodup := by
      simpa using hn
    have hne : k2 ≠ k1 := hn'.1.1
    by_cases h1 : k1 = k <;> by_cases h2 : k2 = k <;>
      simp [alookup, h1, h2]
    exact absurd (h2.trans h1.symm) hne
  | trans p1 p2 ih1 ih2 =>
    rename_i l1 l2 l3
    have hn2 : (dkeys l2).Nodup := by
      have : (dkeys l1).Perm (dkeys l2) := p1.map Prod.fst
      exact this.nodup_iff.1 hn
    exact (ih1 hn).trans (ih2 hn2)

theorem sortDict_perm {β : Type} (d : List (String × β)) : (sortDict d).Perm d :=
  List.mergeSort_perm d _

theorem alookup_sortDict {β : Type} (d : List (String × β))
    (hd : (dkeys d).Nodup) (k : String) :
    alookup (sortDict d) k = alookup d k := by
  have hp : d.Perm (sortDict d) := (sortDict_perm d).symm
  exact (alookup_of_perm hp hd k).symm

theorem nodup_dkeys_sortDict {β : Type} (d : List (String × β))
    (hd : (dkeys d).Nodup) : (dkeys (sortDict d)).Nodup := by
  have : (dkeys (sortDict d)).Perm (dkeys d) := (sortDict_perm d).map Prod.fst
  exact this.nodup_iff.2 hd

theorem alookup_of_mem_nodup {α β : Type} [DecidableEq α]
    {d : List (α × β)} {k : α} {v : β}
    (hmem : (k, v) ∈ d) (hn : (dkeys d).Nodup) : alookup d k = some v := by
  induction d with
  | nil => cases hmem
  | cons p rest ih =>
    obtain ⟨k', v'⟩ := p
    have hcons := List.nodup_cons.1 (by simpa using hn)
    rcases List.mem_cons.1 hmem with h | h
    · cases h
      simp [alookup]
    · have hk : k' ≠ k := by
        intro he
        subst he
        exact hcons.1 (by simpa [dkeys] using List.mem_map_of_mem Prod.fst h)
      simp [alookup, hk, ih h hcons.2]

theorem mergeSettings_cons {β : Type} (d : List (String × β))
    (l : List (List (String × β))) :
    mergeSettings (d :: l) = dictUnion (mergeSettings l) d := by
  simp [mergeSettings, List.foldl_append]

theorem nodup_dkeys_mergeSettings {β : Type} (l : List (List (String × β))) :
    (dkeys (mergeSettings l)).Nodup := by
  induction l with
  | nil => simp [mergeSettings]
  | cons d rest ih =>
    rw [mergeSettings_cons]
    exact nodup_dkeys_dictUnion _ _ ih

theorem alookup_mergeSettings {β : Type} (l : List (List (String × β)))
    (hl : ∀ d ∈ l, (dkeys d).Nodup) (k : String) :
    alookup (mergeSettings l) k = chainLookup l k := by
  induction l with
  | nil => simp [mergeSettings, alookup, chainLookup]
  | cons d rest ih =>
    rw [mergeSettings_cons, alookup_dictUnion _ _ (hl d (by simp))]
    simp [chainLookup, ih (fun d' hd' => hl d' (by simp [hd']))]

theorem alookup_enumFromPairs_ge {α : Type} [DecidableEq α]
    {i j : Int} {l : List α} {k : α}
    (h : alookup (enumFromPairs i l) k = some j) : i ≤ j := by
  induction l generalizing i with
  | nil => simp [enumFromPairs, alookup] at h
  | cons a t ih =>
    by_cases ha : a = k
    · simp [enumFromPairs, alookup, ha] at h
      omega
    · simp [enumFromPairs, alookup, ha] at h
      have := ih h
      omega

theorem alookup_enumFromPairs_eq_none {α : Type} [DecidableEq α]
    (i : Int) (l : List α) (k : α) :
    alookup (enumFromPairs i l) k = none ↔ k ∉ l := by
  induction l generalizing i with
  | nil => simp [enumFromPairs, alookup]
  | cons a t ih =>
    by_cases ha : a = k
    · simp [enumFromPairs, alookup, ha]
    · have ha' : ¬ k = a := fun hh => ha hh.symm
      simp [enumFromPairs, alookup, ha, ha', ih]

theorem alookup_enumFromPairs_isSome {α : Type} [DecidableEq α]
    (i : Int) (l : List α) (k : α) (hk : k ∈ l) :
    ∃ j, alookup (enumFromPairs i l) k = some j ∧ i ≤ j := by
  rcases h : alookup (enumFromPairs i l) k with _ | j
  · exact absurd hk ((alookup_enumFromPairs_eq_none i l k).1 h)
  · exact ⟨j, rfl, alookup_enumFromPairs_ge h⟩

theorem alookup_enumFromPairs_inj {α : Type} [DecidableEq α]
    {i j : Int} {l : List α} {k1 k2 : α}
    (h1 : alookup (enumFromPairs i l) k1 = some j)
    (h2 : alookup (enumFromPairs i l) k2 = some j) : k1 = k2 := by
  induction l generalizing i with
  | nil => simp [enumFromPairs, alookup] at h1
  | cons a t ih =>
    by_cases ha1 : a = k1 <;> by_cases ha2 : a = k2
    · exact ha1.symm.trans ha2
    · subst ha1
      simp [enumFromPairs, alookup] at h1
      simp [enumFromPairs, alookup, ha2] at h2
      have := alookup_enumFromPairs_ge h2
      omega
    · subst ha2
      simp [enumFromPairs, alookup] at h2
      simp [enumFromPairs, alookup, ha1] at h1
      have := alookup_enumFromPairs_ge h1
      omega
    · simp [enumFromPairs, alookup, ha1, ha2] at h1 h2
      exact ih h1 h2

/-- In a list sorted by `≤` (with distinct strings), a strictly smaller key is
enumerated at a strictly smaller index. -/
theorem alookup_enumFromPairs_mono {i j1 j2 : Int} {l : List String} {k1 k2 : String}
    (hs : l.Pairwise (fun a b => a ≤ b))
    (hlt : k1 < k2)
    (h1 : alookup (enumFromPairs i l) k1 = some j1)
    (h2 : alookup (enumFromPairs i l) k2 = some j2) : j1 < j2 := by
  induction l generalizing i with
  | nil => simp [enumFromPairs, alookup] at h1
  | cons a t ih =>
    have hpw := List.pairwise_cons.1 hs
    by_cases ha1 : a = k1 <;> by_cases ha2 : a = k2
    · exact absurd (ha1.symm.trans ha2) (ne_of_lt hlt)
    · subst ha1
      simp [enumFromPairs, alookup] at h1
      simp [enumFromPairs, alookup, ha2] at h2
      have := alookup_enumFromPairs_ge h2
      omega
    · -- head is k2 but k1 < k2 appears later: contradicts sortedness
      subst ha2
      simp [enumFromPairs, alookup, ha1] at h1
      have hk1mem : k1 ∈ t := by
        by_contra hmem
        rw [(alookup_enumFromPairs_eq_none (i + 1) t k1).2 hmem] at h1
        cases h1
      exact absurd (hpw.1 k1 hk1mem) (not_le_of_lt hlt)
    · simp [enumFromPairs, alookup, ha1, ha2] at h1 h2
      exact ih hpw.2 h1 h2


/-! ## Resolver lemmas -/

theorem walkChain_head {pp : ProjectPresets} {t : PresetType} {fuel : Nat}
    {node : PresetNode} {chain : List PresetNode}
    (hw : walkChain pp t fuel node = .ok chain) :
    ∃ rest, chain = node :: rest := by
  cases fuel with
  | zero => cases hw
  | succ f =>
    simp only [walkChain] at hw
    rcases hI : inheritsOf t node.settings with e | inh <;> rw [hI] at hw
    · cases hw
    · by_cases hinh : inh = ""
      · simp [hinh] at hw
        exact ⟨[], hw.symm⟩
      · simp only [hinh, if_false] at hw
        rcases hN : pp.node? t inh with _ | parent <;> simp only [hN] at hw
        · cases hw
        · rcases hW : walkChain pp t f parent with e | chain' <;> simp only [hW] at hw
          · cases hw
          · exact ⟨chain', (Except.ok.injEq .. ▸ hw).symm⟩

/-- With no reference selectors and no empty node name in the chain, the
`while` loop of `all_node_settings` gathers exactly the chain's settings
dicts in the source list, never sets reference metadata, and collects no
reference settings. -/
theorem resolveLoop_no_ref (pp : ProjectPresets) (t : PresetType) :
    ∀ (fuel : Nat) (node : PresetNode) (chain : List PresetNode),
      walkChain pp t fuel node = .ok chain →
      (∀ n ∈ chain, n.metadata.name ≠ "") →
      resolveLoop pp t "" none fuel node none =
        .ok (none, chain.map (fun n => n.settings), []) := by
  intro fuel
  induction fuel with
  | zero =>
    intro node chain hw
    cases hw
  | succ f ih =>
    intro node chain hw hnames
    obtain ⟨rest, hchain⟩ := walkChain_head hw
    have hname : node.metadata.name ≠ "" := by
      subst hchain
      exact hnames node (by simp)
    have hb : isRefBoundary "" none node.metadata = false := by
      simp [isRefBoundary, hname]
    simp only [walkChain] at hw
    simp only [resolveLoop, hb, Option.isNone_none, Bool.false_eq_true, and_false,
      if_false]
    rcases hI : inheritsOf t node.settings with e | inh <;> rw [hI] at hw
    · cases hw
    · by_cases hinh : inh = ""
      · simp [hinh] at hw ⊢
        subst hw
        simp
      · simp only [hinh, if_false] at hw ⊢
        rcases hN : pp.node? t inh with _ | parent <;> simp only [hN] at hw ⊢
        · cases hw
        · rcases hW : walkChain pp t f parent with e | chain' <;> simp only [hW] at hw
          · cases hw
          · have hw' : chain = node :: chain' := (Except.ok.injEq .. ▸ hw).symm
            subst hw'
            have hnames' : ∀ n ∈ chain', n.metadata.name ≠ "" := by
              intro n hn
              exact hnames n (by simp [hn])
            rw [ih parent chain' hW hnames']
            simp

/-- C8: through the public resolver, a returned result with non-empty
reference settings always carries reference metadata; a result with
non-empty `reference_subtree` and `ref_metadata = None` is unreachable. -/
theorem all_node_settings_reference_implies_metadata
    (pp : ProjectPresets) (t : PresetType) (node_name ref_node : String)
    (ref_group : Option PresetGroup) (fuel : Nat) (r : AllNodeSettings)
    (hok : pp.all_node_settings t node_name ref_node ref_group fuel = .ok r)
    (hne : r.reference_subtree.length ≠ 0) :
    r.ref_metadata ≠ none := by
  unfold ProjectPresets.all_node_settings at hok
  split at hok
  · cases hok
  · rcases hN : pp.node? t node_name with _ | this_node <;> simp only [hN] at hok
    · cases hok
    · rcases hL : resolveLoop pp t ref_node ref_group fuel this_node none with
        e | res <;> simp only [hL] at hok
      · cases hok
      · obtain ⟨rm, src, refs⟩ := res
        simp only at hok
        split at hok
        · cases hok
        · rename_i hcond
          have hr : r = ⟨this_node.metadata, rm,
              sortDict (mergeSettings src), sortDict (mergeSettings refs)⟩ :=
            ((Except.ok.injEq ..).mp hok).symm
          subst hr
          simp only at hne
          intro hnone
          simp only at hnone
          exact hcond ⟨hne, by simp [hnone]⟩

theorem all_node_settings_witness_eq :
    ppC8w.all_node_settings .PROCESS "alpha" "alpha" none 1 = .ok rC8w := by
  simp [ProjectPresets.all_node_settings, resolveLoop, inheritsOf, isRefBoundary,
    ProjectPresets.node?, alookup, mergeSettings, sortDict, dictUnion, dictInsert,
    ppC8w, mdC8w, rC8w, INHERITS]

/-- Witness for the C8 theorem at a concrete registry: resolving `alpha`
with itself as reference yields non-empty reference settings, and the
theorem then gives non-`None` reference metadata. -/
theorem all_node_settings_reference_implies_metadata_witness :
    ppC8w.all_node_settings .PROCESS "alpha" "alpha" none 1 = .ok rC8w ∧
      rC8w.reference_subtree.length ≠ 0 ∧ rC8w.ref_metadata ≠ none :=
  ⟨all_node_settings_witness_eq, by simp [rC8w],
    all_node_settings_reference_implies_metadata ppC8w .PROCESS "alpha" "alpha"
      none 1 rC8w all_node_settings_witness_eq (by simp [rC8w])⟩

/-- C3 (amended: the node's name must be non-empty, since the default
`ref_node = ""` boundary test otherwise matches it): a node whose settings
contain no `inherits` key resolves, with no reference selectors, to its own
settings as the source subtree, an empty reference subtree and unset
reference metadata. -/
theorem all_node_settings_no_inherits
    (pp : ProjectPresets) (t : PresetType) (node_name : String) (fuel : Nat)
    (node : PresetNode)
    (hnode : pp.node? t node_name = some node)
    (hname : node.metadata.name ≠ "")
    (hinh : alookup node.settings INHERITS = none)
    (hwf : (dkeys node.settings).Nodup) :
    ∃ r, pp.all_node_settings t node_name "" none (fuel + 1) = .ok r ∧
      r.ref_metadata = none ∧ r.reference_subtree = [] ∧
      ∀ k, alookup r.source_subtree k = alookup node.settings k := by
  have hwalk : walkChain pp t (fuel + 1) node = .ok [node] := by
    simp [walkChain, inheritsOf, hinh]
  have hloop := resolveLoop_no_ref pp t (fuel + 1) node [node] hwalk
    (by simpa using hname)
  refine ⟨⟨node.metadata, none, sortDict (mergeSettings [node.settings]), []⟩, ?_, rfl,
    rfl, ?_⟩
  · simp [ProjectPresets.all_node_settings, hnode, hloop, mergeSettings, sortDict]
  · intro k
    have hn1 : ∀ d ∈ [node.settings], (dkeys d).Nodup := by simpa using hwf
    rw [alookup_sortDict _ (nodup_dkeys_mergeSettings _),
      alookup_mergeSettings _ hn1]
    simp [chainLookup]

theorem all_node_settings_no_inherits_w_eq :
    ppC3w.node? .PROCESS "beta" = some ⟨mdC3w, [("k", SettingValue.str "v")]⟩ := by
  simp [ProjectPresets.node?, alookup, ppC3w]

/-- Witness for the amended C3 theorem at a concrete one-node registry. -/
theorem all_node_settings_no_inherits_witness :
    (mdC3w.name ≠ "" ∧ alookup [("k", SettingValue.str "v")] INHERITS = none) ∧
      ∃ r, ppC3w.all_node_settings .PROCESS "beta" "" none 1 = .ok r ∧
        r.ref_metadata = none ∧ r.reference_subtree = [] ∧
        ∀ k, alookup r.source_subtree k = alookup [("k", SettingValue.str "v")] k :=
  ⟨⟨by simp [mdC3w], by simp [alookup, INHERITS]⟩,
    all_node_settings_no_inherits ppC3w .PROCESS "beta" 0 _
      all_node_settings_no_inherits_w_eq (by simp [mdC3w])
      (by simp [alookup, INHERITS]) (by simp)⟩

/-- C3 counterexample: for the preset node named `""` (empty name) whose
settings `{"k": "v"}` contain no `inherits` key, resolving with no reference
selectors puts the node's own settings in the REFERENCE subtree, sets
`ref_metadata`, and leaves the source subtree empty — the default
`ref_node = ""` matches the node's own empty name, so the claim's promised
result does not hold for this node. -/
theorem all_node_settings_no_inherits_counterexample :
    alookup ([("k", SettingValue.str "v")] : SettingsDict) INHERITS = none ∧
      ppC3x.all_node_settings .PROCESS "" "" none 1 = .ok rC3x ∧
      rC3x.ref_metadata ≠ none ∧ rC3x.source_subtree = [] ∧
      alookup rC3x.source_subtree "k" ≠ alookup [("k", SettingValue.str "v")] "k" := by
  refine ⟨by simp [alookup, INHERITS], ?_, by simp [rC3x], by simp [rC3x],
    by simp [rC3x, alookup]⟩
  simp [ProjectPresets.all_node_settings, resolveLoop, inheritsOf, isRefBoundary,
    ProjectPresets.node?, alookup, mergeSettings, sortDict, dictUnion, dictInsert,
    ppC3x, mdC3x, rC3x, INHERITS]

/-- C2 (amended: every node in the chain must have a non-empty name, since
the default `ref_node = ""` boundary test otherwise diverts part of the
chain into the reference subtree): resolving with no reference selectors
gives, for every key, the value of the first (youngest, most specific)
chain node that sets it — the root-to-leaf last-write-wins merge, so a
child's override always masks an ancestor's value. -/
theorem all_node_settings_child_wins
    (pp : ProjectPresets) (t : PresetType) (node_name : String) (fuel : Nat)
    (node : PresetNode) (chain : List PresetNode)
    (hnode : pp.node? t node_name = some node)
    (hw : walkChain pp t fuel node = .ok chain)
    (hnames : ∀ n ∈ chain, n.metadata.name ≠ "")
    (hwf : ∀ n ∈ chain, (dkeys n.settings).Nodup) :
    ∃ r, pp.all_node_settings t node_name "" none fuel = .ok r ∧
      ∀ k, alookup r.source_subtree k =
        chainLookup (chain.map (fun n => n.settings)) k := by
  have hloop := resolveLoop_no_ref pp t fuel node chain hw hnames
  refine ⟨⟨node.metadata, none,
    sortDict (mergeSettings (chain.map (fun n => n.settings))), []⟩, ?_, ?_⟩
  · simp [ProjectPresets.all_node_settings, hnode, hloop, mergeSettings, sortDict]
  · intro k
    have hn1 : ∀ d ∈ chain.map (fun n => n.settings), (dkeys d).Nodup := by
      intro d hd
      obtain ⟨n, hn, rfl⟩ := List.mem_map.1 hd
      exact hwf n hn
    rw [alookup_sortDict _ (nodup_dkeys_mergeSettings _),
      alookup_mergeSettings _ hn1]

theorem all_node_settings_child_wins_w_node :
    ppC2w.node? .PROCESS "kid" = some ⟨mdC2w, sC2w⟩ := by
  simp [ProjectPresets.node?, alookup, ppC2w]

theorem all_node_settings_child_wins_w_chain :
    walkChain ppC2w .PROCESS 2 ⟨mdC2w, sC2w⟩ = .ok [⟨mdC2w, sC2w⟩, ⟨mdC2wp, sC2wp⟩] := by
  simp [walkChain, inheritsOf, alookup, sC2w, sC2wp, INHERITS,
    ProjectPresets.node?, ppC2w]

/-- Witness for the amended C2 theorem: a two-node chain where both the
child and the parent set `"k"`; the resolved source value for `"k"` is the
child's. -/
theorem all_node_settings_child_wins_witness :
    (∀ n ∈ [(⟨mdC2w, sC2w⟩ : PresetNode), ⟨mdC2wp, sC2wp⟩], n.metadata.name ≠ "") ∧
      chainLookup [sC2w, sC2wp] "k" = some (.str "child") ∧
      ∃ r, ppC2w.all_node_settings .PROCESS "kid" "" none 2 = .ok r ∧
        ∀ k, alookup r.source_subtree k = chainLookup [sC2w, sC2wp] k :=
  ⟨by simp [mdC2w, mdC2wp], by simp [chainLookup, alookup, sC2w],
    all_node_settings_child_wins ppC2w .PROCESS "kid" 2 ⟨mdC2w, sC2w⟩
      [⟨mdC2w, sC2w⟩, ⟨mdC2wp, sC2wp⟩]
      all_node_settings_child_wins_w_node all_node_settings_child_wins_w_chain
      (by simp [mdC2w, mdC2wp]) (by simp [sC2w, sC2wp, INHERITS])⟩

/-- C2 counterexample: in the chain headed by the node named `""` (which
sets `"k"` to `"child"`, overriding its parent's `"k"`), resolving with no
reference selector returns a source subtree NOT containing `"k"` at all —
the default `ref_node = ""` matches the requested node's empty name and the
whole chain lands in the reference subtree instead. -/
theorem all_node_settings_child_wins_counterexample :
    ppC2x.all_node_settings .PROCESS "" "" none 2 = .ok rC2x ∧
      chainLookup [sC2x, sC2xp] "k" = some (.str "child") ∧
      alookup rC2x.source_subtree "k" = none := by
  refine ⟨?_, by simp [chainLookup, alookup, sC2x], by simp [rC2x, alookup]⟩
  have hle : ("inherits" : String) ≤ "k" := by simp; decide
  have hnle : ¬ (("k" : String) ≤ "inherits") := by simp; decide
  simp [ProjectPresets.all_node_settings, resolveLoop, inheritsOf, isRefBoundary,
    ProjectPresets.node?, alookup, mergeSettings, sortDict, dictUnion, dictInsert,
    ppC2x, mdC2x, mdC2xp, sC2x, sC2xp, rC2x, INHERITS, List.mergeSort, List.merge,
    hle, hnle]
  decide

/-- C1: in a three-level chain `A` inherits `B` inherits `C` (`C` the root)
whose non-`inherits` keys are pairwise disjoint, resolving `A` with
`ref_node = C`'s name and no reference group returns `C`'s metadata as the
reference metadata, `C`'s own settings as the reference subtree, the union
of `A`'s and `B`'s settings (`A` winning on shared keys, so `B`'s
non-overridden values survive) as the source subtree, and none of `C`'s
keys ever appears in the source subtree. -/
theorem all_node_settings_three_level_split
    (t : PresetType) (A B C : PresetNode)
    (hAB : A.metadata.name ≠ B.metadata.name)
    (hAC : A.metadata.name ≠ C.metadata.name)
    (hBC : B.metadata.name ≠ C.metadata.name)
    (hBne : B.metadata.name ≠ "")
    (hCne : C.metadata.name ≠ "")
    (hAinh : alookup A.settings INHERITS = some (.str B.metadata.name))
    (hBinh : alookup B.settings INHERITS = some (.str C.metadata.name))
    (hCinh : alookup C.settings INHERITS = none)
    (hwfA : (dkeys A.settings).Nodup)
    (hwfB : (dkeys B.settings).Nodup)
    (hwfC : (dkeys C.settings).Nodup)
    (hdisj : ∀ k, k ≠ INHERITS →
      ¬(k ∈ dkeys A.settings ∧ k ∈ dkeys B.settings) ∧
      ¬(k ∈ dkeys A.settings ∧ k ∈ dkeys C.settings) ∧
      ¬(k ∈ dkeys B.settings ∧ k ∈ dkeys C.settings)) :
    ∃ r, (ProjectPresets.mk []
        [(⟨t, A.metadata.name⟩, A), (⟨t, B.metadata.name⟩, B),
         (⟨t, C.metadata.name⟩, C)]).all_node_settings
          t A.metadata.name C.metadata.name none 3 = .ok r ∧
      r.ref_metadata = some C.metadata ∧
      (∀ k, alookup r.reference_subtree k = alookup C.settings k) ∧
      (∀ k, alookup r.source_subtree k =
        (alookup A.settings k).orElse (fun _ => alookup B.settings k)) ∧
      (∀ k, k ∈ dkeys C.settings → alookup r.source_subtree k = none) := by
  set pp : ProjectPresets := ⟨[],
    [(⟨t, A.metadata.name⟩, A), (⟨t, B.metadata.name⟩, B),
     (⟨t, C.metadata.name⟩, C)]⟩ with hpp
  have hnodeA : pp.node? t A.metadata.name = some A := by
    simp [ProjectPresets.node?, alookup, hpp]
  have hnodeB : pp.node? t B.metadata.name = some B := by
    simp [ProjectPresets.node?, alookup, hpp, hAB]
  have hnodeC : pp.node? t C.metadata.name = some C := by
    simp [ProjectPresets.node?, alookup, hpp, hAC, hBC]
  have hloopA : resolveLoop pp t C.metadata.name none 3 A none =
      .ok (some C.metadata, [A.settings, B.settings], [C.settings]) := by
    simp [resolveLoop, isRefBoundary, inheritsOf, hAinh, hBinh, hCinh,
      hAC, hBC, hBne, hCne, hnodeB, hnodeC]
  have hsrc : ∀ k, alookup (sortDict (mergeSettings [A.settings, B.settings])) k =
      (alookup A.settings k).orElse (fun _ => alookup B.settings k) := by
    intro k
    have hn1 : ∀ d ∈ [A.settings, B.settings], (dkeys d).Nodup := by
      intro d hd
      simp only [List.mem_cons, List.not_mem_nil, or_false] at hd
      rcases hd with rfl | rfl
      · exact hwfA
      · exact hwfB
    rw [alookup_sortDict _ (nodup_dkeys_mergeSettings _), alookup_mergeSettings _ hn1]
    simp [chainLookup]
  refine ⟨⟨A.metadata, some C.metadata,
    sortDict (mergeSettings [A.settings, B.settings]),
    sortDict (mergeSettings [C.settings])⟩, ?_, rfl, ?_, ?_, ?_⟩
  · simp [ProjectPresets.all_node_settings, hnodeA, hloopA]
  · intro k
    have hn1 : ∀ d ∈ [C.settings], (dkeys d).Nodup := by simpa using hwfC
    rw [alookup_sortDict _ (nodup_dkeys_mergeSettings _), alookup_mergeSettings _ hn1]
    simp [chainLookup]
  · exact hsrc
  · intro k hk
    have hkinh : k ≠ INHERITS := by
      intro h
      subst h
      exact (alookup_eq_none_iff _ _).1 hCinh hk
    obtain ⟨_, hAC2, hBC2⟩ := hdisj k hkinh
    have hAnone : alookup A.settings k = none :=
      (alookup_eq_none_iff _ _).2 (fun hmem => hAC2 ⟨hmem, hk⟩)
    have hBnone : alookup B.settings k = none :=
      (alookup_eq_none_iff _ _).2 (fun hmem => hBC2 ⟨hmem, hk⟩)
    rw [hsrc k, hAnone, hBnone]
    rfl

theorem three_level_split_w_disj : ∀ k, k ≠ INHERITS →
    ¬(k ∈ dkeys nodeC1A.settings ∧ k ∈ dkeys nodeC1B.settings) ∧
    ¬(k ∈ dkeys nodeC1A.settings ∧ k ∈ dkeys nodeC1C.settings) ∧
    ¬(k ∈ dkeys nodeC1B.settings ∧ k ∈ dkeys nodeC1C.settings) := by
  intro k hk
  refine ⟨?_, ?_, ?_⟩
  · rintro ⟨h1, _⟩
    exact hk (by simpa [nodeC1A, INHERITS] using h1)
  · rintro ⟨h1, _⟩
    exact hk (by simpa [nodeC1A, INHERITS] using h1)
  · rintro ⟨h1, h2⟩
    have hb : k = "kb" ∨ k = "inherits" := by simpa [nodeC1B, INHERITS] using h1
    have hc : k = "kc" := by simpa [nodeC1C] using h2
    rcases hb with rfl | rfl
    · exact absurd hc (by decide)
    · exact hk (by simp [INHERITS])

/-- Witness for the C1 theorem on the concrete chain `A → B → C` (with
`A = {inherits: B}`, `B = {kb: vb, inherits: C}`, `C = {kc: vc}`). -/
theorem all_node_settings_three_level_split_witness :
    (alookup nodeC1A.settings INHERITS =
        some (.str nodeC1B.metadata.name) ∧
      alookup nodeC1B.settings INHERITS =
        some (.str nodeC1C.metadata.name) ∧
      alookup nodeC1C.settings INHERITS = none) ∧
    ∃ r, (ProjectPresets.mk []
        [(⟨.PROCESS, nodeC1A.metadata.name⟩, nodeC1A),
         (⟨.PROCESS, nodeC1B.metadata.name⟩, nodeC1B),
         (⟨.PROCESS, nodeC1C.metadata.name⟩, nodeC1C)]).all_node_settings
          .PROCESS nodeC1A.metadata.name nodeC1C.metadata.name none 3 = .ok r ∧
      r.ref_metadata = some nodeC1C.metadata ∧
      (∀ k, alookup r.reference_subtree k = alookup nodeC1C.settings k) ∧
      (∀ k, alookup r.source_subtree k =
        (alookup nodeC1A.settings k).orElse
          (fun _ => alookup nodeC1B.settings k)) ∧
      (∀ k, k ∈ dkeys nodeC1C.settings → alookup r.source_subtree k = none) :=
  ⟨⟨by simp [nodeC1A, nodeC1B, alookup],
    by simp [nodeC1B, nodeC1C, alookup, INHERITS],
    by simp [nodeC1C, alookup, INHERITS]⟩,
    all_node_settings_three_level_split .PROCESS nodeC1A nodeC1B nodeC1C
      (by simp [nodeC1A, nodeC1B]) (by simp [nodeC1A, nodeC1C])
      (by simp [nodeC1B, nodeC1C]) (by simp [nodeC1B]) (by simp [nodeC1C])
      (by simp [nodeC1A, nodeC1B, alookup])
      (by simp [nodeC1B, nodeC1C, alookup, INHERITS])
      (by simp [nodeC1C, alookup, INHERITS])
      (by simp [nodeC1A, INHERITS]) (by simp [nodeC1B, INHERITS])
      (by simp [nodeC1C]) three_level_split_w_disj⟩

/-- C4: adding a project node whose (type, name) key is already present in
the shared scope or in the project scope raises the key-collision error and
leaves both scopes exactly as they were (the error is raised before any
insert). -/
theorem add_project_node_collision
    (pp : ProjectPresets) (metadata : NodeMetadata) (settings : SettingsDict)
    (h : (alookup pp.shared_nodes ⟨metadata.preset_type, metadata.name⟩).isSome ∨
      (alookup pp.project_nodes ⟨metadata.preset_type, metadata.name⟩).isSome) :
    (pp.add_project_node metadata settings).2.isSome ∧
      (pp.add_project_node metadata settings).1.shared_nodes = pp.shared_nodes ∧
      (pp.add_project_node metadata settings).1.project_nodes = pp.project_nodes := by
  unfold ProjectPresets.add_project_node
  rcases h with h | h
  · simp [h]
  · by_cases h2 : (alookup pp.shared_nodes ⟨metadata.preset_type, metadata.name⟩).isSome
    · simp [h2]
    · simp [h, h2]

/-- Witness for C4: re-adding the key (`PROCESS`, `"dup"`) that the project
scope already holds fails and changes nothing. -/
theorem add_project_node_collision_witness :
    (alookup ppC4w.project_nodes ⟨mdC4w.preset_type, mdC4w.name⟩).isSome ∧
      ((ppC4w.add_project_node mdC4w [("x", .str "y")]).2.isSome ∧
        (ppC4w.add_project_node mdC4w [("x", .str "y")]).1.shared_nodes =
          ppC4w.shared_nodes ∧
        (ppC4w.add_project_node mdC4w [("x", .str "y")]).1.project_nodes =
          ppC4w.project_nodes) :=
  ⟨by simp [ppC4w, mdC4w, alookup],
    add_project_node_collision ppC4w mdC4w [("x", .str "y")]
      (Or.inr (by simp [ppC4w, mdC4w, alookup]))⟩

/-- C9 (amended): `PresetNode` construction succeeds exactly when AT LEAST
one of settings and source path is provided; it fails exactly when both are
absent.  (The source only checks `settings is None and path is None`;
providing both succeeds.) -/
theorem presetNodeInit_ok_iff
    (metadata : NodeMetadata) (settings : Option SettingsDict)
    (path : Option String) (user_base_fix : Bool) :
    (∃ n, presetNodeInit metadata settings path user_base_fix = .ok n) ↔
      (settings ≠ none ∨ path ≠ none) := by
  unfold presetNodeInit
  by_cases hs : settings = none <;> by_cases hp : path = none <;> simp [hs, hp]

/-- C9 counterexample: constructing a `PresetNode` with BOTH a settings
dict and a source path succeeds, contradicting the claim that exactly one
of the two must be provided (the code only rejects the neither-provided
case). -/
theorem presetNodeInit_both_provided_succeeds :
    presetNodeInit mdC9x (some [("k", .str "v")]) (some "f.json") false =
      .ok ⟨mdC9x, some "f.json", some [("k", .str "v")], false⟩ := by
  simp [presetNodeInit]

/-- C10: when the difference descriptor's first `;`-separated element is
empty — which covers the empty descriptor `""` and any descriptor starting
with `';'` such as `";key_a"` — `_differences_to_settings` adds nothing at
all: the slot's settings dict comes back exactly as passed in (only its
pre-populated base fields), with no error, even if later elements name
valid overridden keys. -/
theorem differences_to_settings_empty_first
    (project_config : SettingsDict) (value_idx : Nat) (diff : String)
    (settings : SettingsDict) (metadata : NodeMetadata) (filament_count : Nat)
    (h : (splitOnSemicolon diff).headD "" = "") :
    differences_to_settings project_config value_idx diff settings metadata
      filament_count = (settings, none) := by
  unfold differences_to_settings
  simp only [List.headD_eq_head?_getD] at h
  simp [h]

/-- Witness for C10 at the descriptor `";key_a"`, whose later element
`key_a` is a perfectly valid overridden key of the config. -/
theorem differences_to_settings_empty_first_witness :
    (splitOnSemicolon ";key_a").headD "" = "" ∧
      filamentKeyOk cfgC10w 2 0 "key_a" = true ∧
      differences_to_settings cfgC10w 0 ";key_a" baseC10w mdC10w 2 =
        (baseC10w, none) :=
  ⟨by decide, by decide,
    differences_to_settings_empty_first cfgC10w 0 ";key_a" baseC10w mdC10w 2
      (by decide)⟩

/-- Processing a prefix of difference keys that are all well-shaped for a
filament override neither raises nor touches any key outside the prefix. -/
theorem differencesLoop_ok_prefix
    (project_config : SettingsDict) (value_idx : Nat) (metadata : NodeMetadata)
    (filament_count : Nat) (hty : metadata.preset_type = .FILAMENT) :
    ∀ (pre rest : List String) (settings : SettingsDict),
      (∀ p ∈ pre, filamentKeyOk project_config filament_count value_idx p = true) →
      ∃ settings',
        differencesLoop project_config value_idx metadata filament_count settings
            (pre ++ rest) =
          differencesLoop project_config value_idx metadata filament_count
            settings' rest ∧
        ∀ k, k ∉ pre → alookup settings' k = alookup settings k := by
  intro pre
  induction pre with
  | nil =>
    intro rest settings _
    exact ⟨settings, rfl, fun k _ => rfl⟩
  | cons p pre ih =>
    intro rest settings hpre
    have hp := hpre p (by simp)
    rcases hv : alookup project_config p with _ | values
    · simp [filamentKeyOk, hv] at hp
    · by_cases hnotes : p = "filament_notes"
      · subst hnotes
        obtain ⟨settings', heq, hlook⟩ :=
          ih rest settings (fun q hq => hpre q (by simp [hq]))
        refine ⟨settings', ?_,
          fun k hk => hlook k (fun hm => hk (List.mem_cons_of_mem _ hm))⟩
        simp only [List.cons_append, differencesLoop, hv, hty]
        simpa using heq
      · rcases values with s | vs
        · simp [filamentKeyOk, hv, hnotes] at hp
        · simp [filamentKeyOk, hv, hnotes] at hp
          obtain ⟨hlen, hidx⟩ := hp
          have hw : vs[value_idx]? = some vs[value_idx] :=
            List.getElem?_eq_getElem hidx
          obtain ⟨settings', heq, hlook⟩ :=
            ih rest (dictInsert settings p (.str vs[value_idx]))
              (fun q hq => hpre q (by simp [hq]))
          refine ⟨settings', ?_, ?_⟩
          · simp only [List.cons_append, differencesLoop, hv, hty, hnotes,
              if_false, hlen, hw]
            simpa [hnotes] using heq
          · intro k hk
            have hk1 : ¬ k = p := fun h => hk (by simp [h])
            have hk2 : k ∉ pre := fun h => hk (by simp [h])
            rw [hlook k hk2, alookup_dictInsert]
            have hpk : ¬ p = k := fun h => hk1 h.symm
            simp [hpk]

/-- C5: for a filament-override slot, when the first offending key `k` of
the difference descriptor (all keys before it are well-shaped, `k` is not
the always-skipped `filament_notes`) has a project value that is a list of
the wrong length, the conversion stops with the shape error carrying the
override name, the key, the expected length (the filament count) and the
actual length; a value that is not a list at all stops with the type error
instead; and in either case the slot's settings gain no entry for `k`. -/
theorem differences_to_settings_bad_filament_value
    (project_config : SettingsDict) (value_idx filament_count : Nat)
    (metadata : NodeMetadata) (settings : SettingsDict)
    (diff : String) (pre rest : List String) (k : String) (v : SettingValue)
    (hty : metadata.preset_type = .FILAMENT)
    (hsplit : splitOnSemicolon diff = pre ++ k :: rest)
    (hhead : (splitOnSemicolon diff).headD "" ≠ "")
    (hpre : ∀ p ∈ pre, filamentKeyOk project_config filament_count value_idx p = true)
    (hknotes : k ≠ "filament_notes")
    (hv : alookup project_config k = some v)
    (hbad : (∃ s, v = .str s) ∨ ∃ vs, v = .strs vs ∧ vs.length ≠ filament_count) :
    (differences_to_settings project_config value_idx diff settings metadata
        filament_count).2 =
      some (match v with
        | .str _ => .typeErr metadata.name k v
        | .strs vs => .shapeErr metadata.name k filament_count vs.length) ∧
    (k ∉ dkeys settings →
      k ∉ dkeys (differences_to_settings project_config value_idx diff settings
        metadata filament_count).1) := by
  obtain ⟨settings', heq, hlook⟩ :=
    differencesLoop_ok_prefix project_config value_idx metadata filament_count hty
      pre (k :: rest) settings hpre
  have hkpre : k ∉ pre := by
    intro hmem
    have hok := hpre k hmem
    rcases hbad with ⟨s, rfl⟩ | ⟨vs, rfl, hlen⟩ <;>
      simp [filamentKeyOk, hv, hknotes] at hok
    exact hlen hok.1
  have hhead' : ¬ ((pre ++ k :: rest).headD "" = "") := by
    rw [← hsplit]
    exact hhead
  have hres : differences_to_settings project_config value_idx diff settings
      metadata filament_count =
      differencesLoop project_config value_idx metadata filament_count settings'
        (k :: rest) := by
    simp only [differences_to_settings]
    rw [hsplit, if_neg hhead', heq]
  have hstop : differencesLoop project_config value_idx metadata filament_count
      settings' (k :: rest) =
      (settings', some (match v with
        | .str _ => .typeErr metadata.name k v
        | .strs vs => .shapeErr metadata.name k filament_count vs.length)) := by
    rcases hbad with ⟨s, rfl⟩ | ⟨vs, rfl, hlen⟩
    · simp [differencesLoop, hv, hty, hknotes]
    · simp [differencesLoop, hv, hty, hknotes, hlen]
  rw [hres, hstop]
  refine ⟨rfl, fun hmem => ?_⟩
  have : alookup settings' k = none := by
    rw [hlook k hkpre]
    exact (alookup_eq_none_iff _ _).2 hmem
  exact (alookup_eq_none_iff _ _).1 this

theorem bad_filament_value_w_parts :
    splitOnSemicolon "bad_key" = [] ++ "bad_key" :: [] ∧
      (splitOnSemicolon "bad_key").headD "" ≠ "" ∧
      alookup cfgC5w "bad_key" = some (.strs ["a"]) := by
  refine ⟨by decide, by decide, by decide⟩

/-- Witness for C5: the single difference key `bad_key` has a one-element
value list while the filament count is 2; the conversion reports the shape
error with the override name, the key and both lengths, and adds no
`bad_key` entry to the slot settings. -/
theorem differences_to_settings_bad_filament_value_witness :
    (alookup cfgC5w "bad_key" = some (.strs ["a"]) ∧ (1 : Nat) ≠ 2) ∧
      (differences_to_settings cfgC5w 0 "bad_key" baseC5w mdC5w 2).2 =
        some (.shapeErr "ov_ab" "bad_key" 2 1) ∧
      ("bad_key" ∉ dkeys baseC5w →
        "bad_key" ∉ dkeys (differences_to_settings cfgC5w 0 "bad_key" baseC5w
          mdC5w 2).1) :=
  ⟨⟨by decide, by decide⟩,
    differences_to_settings_bad_filament_value cfgC5w 0 2 mdC5w baseC5w
      "bad_key" [] [] "bad_key" (.strs ["a"]) (by simp [mdC5w])
      bad_filament_value_w_parts.1 bad_filament_value_w_parts.2.1
      (by simp) (by decide) bad_filament_value_w_parts.2.2
      (Or.inr ⟨["a"], rfl, by decide⟩)⟩

/-! ## Diff matrix lemmas -/

theorem dictUnion_cons {α β : Type} [DecidableEq α]
    (d : List (α × β)) (p : α × β) (e : List (α × β)) :
    dictUnion d (p :: e) = dictUnion (dictInsert d p.1 p.2) e := rfl

theorem dictUnion_append {α β : Type} [DecidableEq α]
    (d e1 e2 : List (α × β)) :
    dictUnion d (e1 ++ e2) = dictUnion (dictUnion d e1) e2 := by
  simp [dictUnion, List.foldl_append]

theorem enumFromPairs_append {α : Type} (i : Int) (l1 l2 : List α) :
    enumFromPairs i (l1 ++ l2) =
      enumFromPairs i l1 ++ enumFromPairs (i + l1.length) l2 := by
  induction l1 generalizing i with
  | nil => simp [enumFromPairs]
  | cons a t ih =>
    rw [List.cons_append,
      show enumFromPairs i (a :: (t ++ l2)) =
        (a, i) :: enumFromPairs (i + 1) (t ++ l2) from rfl,
      ih (i + 1),
      show enumFromPairs i (a :: t) = (a, i) :: enumFromPairs (i + 1) t from rfl]
    simp only [List.length_cons, List.cons_append]
    push_cast
    rw [show i + 1 + (t.length : Int) = i + ((t.length : Int) + 1) by ring]

theorem dkeys_enumFromPairs {α : Type} (i : Int) (l : List α) :
    dkeys (enumFromPairs i l) = l := by
  induction l generalizing i with
  | nil => simp [enumFromPairs]
  | cons a t ih => simp [enumFromPairs, ih]

theorem resetCols_inner (g : PresetGroup) :
    ∀ (keys : List NodeMetadata) (d : List (NodeMetadata × Int)) (i : Int),
      keys.foldl (fun acc2 key =>
          if key.group = g then (dictInsert acc2.1 key acc2.2, acc2.2 + 1)
          else acc2) (d, i) =
        (dictUnion d (enumFromPairs i (keys.filter (fun k => k.group == g))),
          i + (keys.filter (fun k => k.group == g)).length) := by
  intro keys
  induction keys with
  | nil =>
    intro d i
    simp [dictUnion, enumFromPairs]
  | cons a t ih =>
    intro d i
    by_cases h : a.group = g
    · have hb : (a.group == g) = true := by simp [h]
      rw [List.foldl_cons]
      simp only [if_pos h]
      rw [ih, List.filter_cons]
      simp [hb, enumFromPairs, dictUnion_cons, Prod.ext_iff]
      ring
    · have hb : (a.group == g) = false := by simp [h]
      rw [List.foldl_cons]
      simp only [if_neg h]
      rw [ih, List.filter_cons]
      simp [hb]

/-- The nested index-assignment loop of `_reset_lookups` computes exactly
the enumeration of the priority-then-insertion column order. -/
theorem resetCols_eq (cols : List (NodeMetadata × Int)) :
    resetCols cols = dictUnion cols (enumFromPairs 0 (colOrder (dkeys cols))) := by
  unfold resetCols groupPriority
  simp only [List.foldl_cons, List.foldl_nil]
  rw [resetCols_inner, resetCols_inner, resetCols_inner, resetCols_inner]
  simp only [colOrder, enumFromPairs_append, dictUnion_append,
    List.length_append, Nat.cast_add, add_assoc]

theorem mem_colOrder {k : NodeMetadata} {keys : List NodeMetadata}
    (hk : k ∈ keys) : k ∈ colOrder keys := by
  cases hg : k.group <;> simp [colOrder, List.mem_filter, hk, hg]

theorem colOrder_nodup {keys : List NodeMetadata} (h : keys.Nodup) :
    (colOrder keys).Nodup := by
  have hf : ∀ g : PresetGroup, (keys.filter (fun k => k.group == g)).Nodup :=
    fun g => h.filter _
  have hd : ∀ g1 g2 : PresetGroup, g1 ≠ g2 →
      (keys.filter (fun k => k.group == g1)).Disjoint
        (keys.filter (fun k => k.group == g2)) := by
    intro g1 g2 hne a ha1 ha2
    have h1 := (List.mem_filter.1 ha1).2
    have h2 := (List.mem_filter.1 ha2).2
    simp only [beq_iff_eq] at h1 h2
    exact hne (h1.symm.trans h2)
  unfold colOrder
  simp only [List.nodup_append, List.disjoint_append_left, List.disjoint_append_right]
  refine ⟨⟨⟨hf _, hf _, hd _ _ (by simp)⟩, hf _, hd _ _ (by simp), hd _ _ (by simp)⟩,
    hf _, ⟨hd _ _ (by simp), hd _ _ (by simp)⟩, hd _ _ (by simp)⟩

theorem alookup_resetCols (cols : List (NodeMetadata × Int))
    (hn : (dkeys cols).Nodup) (k : NodeMetadata) (hk : k ∈ dkeys cols) :
    alookup (resetCols cols) k =
      alookup (enumFromPairs 0 (colOrder (dkeys cols))) k := by
  rw [resetCols_eq, alookup_dictUnion _ _
    (by rw [dkeys_enumFromPairs]; exact colOrder_nodup hn)]
  obtain ⟨j, hj, _⟩ := alookup_enumFromPairs_isSome 0 _ k (mem_colOrder hk)
  simp [hj]

theorem alookup_resetCols_isSome (cols : List (NodeMetadata × Int))
    (hn : (dkeys cols).Nodup) (k : NodeMetadata) (hk : k ∈ dkeys cols) :
    ∃ j, alookup (resetCols cols) k = some j ∧ 0 ≤ j := by
  rw [alookup_resetCols cols hn k hk]
  exact alookup_enumFromPairs_isSome 0 _ k (mem_colOrder hk)

theorem resetCols_index_inj (cols : List (NodeMetadata × Int))
    (hn : (dkeys cols).Nodup) {k1 k2 : NodeMetadata} {j : Int}
    (hk1 : k1 ∈ dkeys cols) (hk2 : k2 ∈ dkeys cols)
    (h1 : alookup (resetCols cols) k1 = some j)
    (h2 : alookup (resetCols cols) k2 = some j) : k1 = k2 := by
  rw [alookup_resetCols cols hn k1 hk1] at h1
  rw [alookup_resetCols cols hn k2 hk2] at h2
  exact alookup_enumFromPairs_inj h1 h2

theorem alookup_resetRows (rows : List (String × Int))
    (hn : (dkeys rows).Nodup) (k : String) (hk : k ∈ dkeys rows) :
    alookup (resetRows rows) k =
      alookup (enumFromPairs 0
        ((dkeys rows).mergeSort (fun a b => decide (a ≤ b)))) k := by
  unfold resetRows
  rw [alookup_dictUnion _ _
    (by rw [dkeys_enumFromPairs]; exact (List.mergeSort_perm _ _).nodup_iff.2 hn)]
  have hk' : k ∈ (dkeys rows).mergeSort (fun a b => decide (a ≤ b)) :=
    (List.mergeSort_perm _ _).mem_iff.2 hk
  obtain ⟨j, hj, _⟩ := alookup_enumFromPairs_isSome 0 _ k hk'
  rw [hj]
  rfl

theorem alookup_resetRows_isSome (rows : List (String × Int))
    (hn : (dkeys rows).Nodup) (k : String) (hk : k ∈ dkeys rows) :
    ∃ j, alookup (resetRows rows) k = some j ∧ 0 ≤ j := by
  rw [alookup_resetRows rows hn k hk]
  exact alookup_enumFromPairs_isSome 0 _ k ((List.mergeSort_perm _ _).mem_iff.2 hk)

theorem resetRows_index_inj (rows : List (String × Int))
    (hn : (dkeys rows).Nodup) {k1 k2 : String} {j : Int}
    (hk1 : k1 ∈ dkeys rows) (hk2 : k2 ∈ dkeys rows)
    (h1 : alookup (resetRows rows) k1 = some j)
    (h2 : alookup (resetRows rows) k2 = some j) : k1 = k2 := by
  rw [alookup_resetRows rows hn k1 hk1] at h1
  rw [alookup_resetRows rows hn k2 hk2] at h2
  exact alookup_enumFromPairs_inj h1 h2

/-- Rows are assigned indices in ascending alphabetic order of row name. -/
theorem resetRows_monotone (rows : List (String × Int))
    (hn : (dkeys rows).Nodup) {k1 k2 : String} {j1 j2 : Int}
    (hk1 : k1 ∈ dkeys rows) (hk2 : k2 ∈ dkeys rows) (hlt : k1 < k2)
    (h1 : alookup (resetRows rows) k1 = some j1)
    (h2 : alookup (resetRows rows) k2 = some j2) : j1 < j2 := by
  rw [alookup_resetRows rows hn k1 hk1] at h1
  rw [alookup_resetRows rows hn k2 hk2] at h2
  have hsorted : ((dkeys rows).mergeSort (fun a b => decide (a ≤ b))).Pairwise
      (fun a b : String => a ≤ b) := by
    have h := @List.sorted_mergeSort String (fun a b => decide (a ≤ b))
      (fun a b c hab hbc => by
        simp only [decide_eq_true_eq] at hab hbc ⊢
        exact le_trans hab hbc)
      (fun a b => by simpa using le_total a b) (dkeys rows)
    simpa using h
  exact alookup_enumFromPairs_mono hsorted hlt h1 h2

theorem dictInsert_dictInsert_same {α β : Type} [DecidableEq α]
    (d : List (α × β)) (k : α) (v w : β) :
    dictInsert (dictInsert d k v) k w = dictInsert d k w := by
  induction d with
  | nil => simp [dictInsert]
  | cons p rest ih =>
    obtain ⟨k', v'⟩ := p
    by_cases h : k' = k
    · subst h
      simp [dictInsert]
    · simp [dictInsert, h, ih]

theorem self_mem_dictInsert {α β : Type} [DecidableEq α]
    (d : List (α × β)) (k : α) (v : β) : (k, v) ∈ dictInsert d k v := by
  induction d with
  | nil => simp [dictInsert]
  | cons p rest ih =>
    obtain ⟨k', v'⟩ := p
    by_cases h : k' = k <;> simp [dictInsert, h, ih]

theorem filter_eq_nil_of {γ : Type} {l : List γ} {p : γ → Bool}
    (h : ∀ a ∈ l, ¬ p a = true) : l.filter p = [] := by
  induction l with
  | nil => rfl
  | cons x t ih =>
    rw [List.filter_cons, if_neg (h x (by simp))]
    exact ih (fun a ha => h a (by simp [ha]))

theorem filter_map_comm {γ δ : Type} (f : γ → δ) (p : δ → Bool) (l : List γ) :
    (l.map f).filter p = (l.filter (fun a => p (f a))).map f := by
  induction l with
  | nil => rfl
  | cons x t ih =>
    by_cases h : p (f x) = true <;> simp [List.filter_cons, h, ih]

theorem filter_eq_singleton_of_unique {γ : Type} {l : List γ} {p : γ → Bool} {a : γ}
    (hl : l.Nodup) (ha : a ∈ l) (hpa : p a = true)
    (huniq : ∀ b ∈ l, p b = true → b = a) :
    l.filter p = [a] := by
  induction l with
  | nil => cases ha
  | cons x t ih =>
    have hx := List.nodup_cons.1 hl
    rcases List.mem_cons.1 ha with rfl | hmem
    · have ht : t.filter p = [] := filter_eq_nil_of (fun b hb hpb => by
        have hba := huniq b (by simp [hb]) hpb
        subst hba
        exact hx.1 hb)
      rw [List.filter_cons, if_pos hpa, ht]
    · have hpx : ¬ (p x = true) := by
        intro hpx
        have hxa := huniq x (by simp) hpx
        subst hxa
        exact hx.1 hmem
      rw [List.filter_cons, if_neg hpx]
      exact ih hx.2 hmem (fun b hb hpb => huniq b (by simp [hb]) hpb)

theorem DiffMatrix_WF_init : DiffMatrix.init.WF := by
  refine ⟨by simp [DiffMatrix.init], by simp [DiffMatrix.init],
    by simp [DiffMatrix.init], ?_⟩
  intro p hp
  simp [DiffMatrix.init] at hp

theorem DiffMatrix_WF_add_value (m : DiffMatrix) (hwf : m.WF) (r : String)
    (c : NodeMetadata) (v : String) (t : DiffType) :
    (m.add_value r c v t).WF := by
  obtain ⟨h1, h2, h3, h4⟩ := hwf
  refine ⟨nodup_dkeys_dictInsert _ _ _ h1, nodup_dkeys_dictInsert _ _ _ h2,
    nodup_dkeys_dictInsert _ _ _ h3, ?_⟩
  intro p hp
  rcases (mem_dkeys_dictInsert _ _ _ _).1 hp with hp | hp
  · obtain ⟨hr, hc⟩ := h4 p hp
    exact ⟨(mem_dkeys_dictInsert _ _ _ _).2 (Or.inl hr),
      (mem_dkeys_dictInsert _ _ _ _).2 (Or.inl hc)⟩
  · subst hp
    exact ⟨(mem_dkeys_dictInsert _ _ _ _).2 (Or.inr rfl),
      (mem_dkeys_dictInsert _ _ _ _).2 (Or.inr rfl)⟩

/-- C6: after two successive `add_value` calls with the same row name and
column metadata (and different values/classifications), the ordered
traversal contains exactly one cell at that row/column position, and it
carries the value and classification of the second call — `add_value`
overwrites, it does not accumulate. -/
theorem add_value_overwrites_single_cell
    (m : DiffMatrix) (hwf : m.WF) (r0 : String) (meta : NodeMetadata)
    (v1 v2 : String) (t1 t2 : DiffType) :
    ∃ ri ci : Int, 0 ≤ ri ∧ 0 ≤ ci ∧
      (((m.add_value r0 meta v1 t1).add_value r0 meta v2 t2).table_cells).filter
          (fun c => decide (c.row = ri + 3) && decide (c.column = ci + 1)) =
        [⟨ri + 3, ci + 1, v2, .diff t2⟩] := by
  have hwf' := DiffMatrix_WF_add_value _
    (DiffMatrix_WF_add_value m hwf r0 meta v1 t1) r0 meta v2 t2
  set m' := (m.add_value r0 meta v1 t1).add_value r0 meta v2 t2 with hm'
  obtain ⟨hn_rows, hn_cols, hn_vals, hkeys⟩ := hwf'
  have hr0 : r0 ∈ dkeys m'.rows := (mem_dkeys_dictInsert _ _ _ _).2 (Or.inr rfl)
  have hc0 : meta ∈ dkeys m'.cols := (mem_dkeys_dictInsert _ _ _ _).2 (Or.inr rfl)
  obtain ⟨ri, hri, hri0⟩ := alookup_resetRows_isSome m'.rows hn_rows r0 hr0
  obtain ⟨ci, hci, hci0⟩ := alookup_resetCols_isSome m'.cols hn_cols meta hc0
  refine ⟨ri, ci, hri0, hci0, ?_⟩
  have hne0 : ¬ ((0 : Int) = ri + 3) := by omega
  have hne1 : ¬ ((1 : Int) = ri + 3) := by omega
  have hne2 : ¬ ((2 : Int) = ri + 3) := by omega
  have hcol0 : ¬ ((0 : Int) = ci + 1) := by omega
  have hreset : m'.reset_required = true := rfl
  have hvals : (m'.reset_lookups).values = m'.values := rfl
  have hrows : (m'.reset_lookups).rows = resetRows m'.rows := rfl
  have hcols : (m'.reset_lookups).cols = resetCols m'.cols := rfl
  rw [DiffMatrix.table_cells, hreset]
  simp only [if_true, List.filter_append, hvals, hrows, hcols]
  have hA : ([(⟨0, 0, "Group", .fmt .NORMAL⟩ : CellInfo),
      ⟨1, 0, "Filename", .fmt .NORMAL⟩, ⟨2, 0, "Preset", .fmt .NORMAL⟩].filter
        (fun c => decide (c.row = ri + 3) && decide (c.column = ci + 1))) = [] := by
    simp [hne0, hne1, hne2]
  have hB : ((resetRows m'.rows).map (fun rv =>
      (⟨rv.2 + DiffMatrix.header_count, 0, rv.1, .fmt .NORMAL⟩ : CellInfo))).filter
        (fun c => decide (c.row = ri + 3) && decide (c.column = ci + 1)) = [] := by
    refine filter_eq_nil_of ?_
    intro a ha
    obtain ⟨rv, _, rfl⟩ := List.mem_map.1 ha
    simp [hcol0]
  have hC : ((resetCols m'.cols).flatMap (fun cv =>
      [(⟨0, cv.2 + 1, cv.1.group.val, .fmt .NORMAL⟩ : CellInfo),
       ⟨1, cv.2 + 1, cv.1.filename, .fmt .NORMAL⟩,
       ⟨2, cv.2 + 1, cv.1.name, .fmt .NORMAL⟩])).filter
        (fun c => decide (c.row = ri + 3) && decide (c.column = ci + 1)) = [] := by
    refine filter_eq_nil_of ?_
    intro a ha
    obtain ⟨cv, _, hcell⟩ := List.mem_flatMap.1 ha
    simp only [List.mem_cons, List.not_mem_nil, or_false] at hcell
    rcases hcell with rfl | rfl | rfl
    · simp [hne0]
    · simp [hne1]
    · simp [hne2]
  have hcollapse : m'.values =
      dictInsert m.values ⟨r0, meta⟩ ⟨v2, t2⟩ := by
    rw [hm']
    exact dictInsert_dictInsert_same _ _ _ _
  have hD : ((m'.values).map (fun kv =>
      (⟨(alookup (resetRows m'.rows) kv.1.row_name).getD 0 + DiffMatrix.header_count,
        (alookup (resetCols m'.cols) kv.1.metadata).getD 0 + 1, kv.2.value,
        .diff kv.2.type⟩ : CellInfo))).filter
        (fun c => decide (c.row = ri + 3) && decide (c.column = ci + 1)) =
      [⟨ri + 3, ci + 1, v2, .diff t2⟩] := by
    rw [filter_map_comm]
    have hfilter : (m'.values).filter (fun kv =>
        decide ((alookup (resetRows m'.rows) kv.1.row_name).getD 0 +
            DiffMatrix.header_count = ri + 3) &&
          decide ((alookup (resetCols m'.cols) kv.1.metadata).getD 0 + 1 = ci + 1)) =
        [(⟨r0, meta⟩, ⟨v2, t2⟩)] := by
      refine filter_eq_singleton_of_unique (List.Nodup.of_map _ hn_vals) ?_ ?_ ?_
      · rw [hcollapse]
        exact self_mem_dictInsert _ _ _
      · simp [hri, hci, DiffMatrix.header_count]
      · rintro ⟨path, dv⟩ hb hpb
        have hmemk : path ∈ dkeys m'.values := by
          simpa [dkeys] using List.mem_map_of_mem Prod.fst hb
        obtain ⟨hrmem, hcmem⟩ := hkeys path hmemk
        obtain ⟨jr, hjr, _⟩ := alookup_resetRows_isSome m'.rows hn_rows _ hrmem
        obtain ⟨jc, hjc, _⟩ := alookup_resetCols_isSome m'.cols hn_cols _ hcmem
        simp only [hjr, hjc, Option.getD_some, Bool.and_eq_true,
          decide_eq_true_eq, DiffMatrix.header_count] at hpb
        have hjr' : jr = ri := by omega
        have hjc' : jc = ci := by omega
        subst hjr'
        subst hjc'
        have hrow : path.row_name = r0 :=
          resetRows_index_inj m'.rows hn_rows hrmem hr0 hjr hri
        have hcol : path.metadata = meta :=
          resetCols_index_inj m'.cols hn_cols hcmem hc0 hjc hci
        have hpath : path = ⟨r0, meta⟩ := by
          obtain ⟨prn, pmd⟩ := path
          simp only at hrow hcol
          rw [hrow, hcol]
        subst hpath
        have hlook1 : alookup m'.values (⟨r0, meta⟩ : DiffValuePath) = some dv :=
          alookup_of_mem_nodup hb hn_vals
        have hlook2 : alookup m'.values (⟨r0, meta⟩ : DiffValuePath) =
            some ⟨v2, t2⟩ := by
          rw [hcollapse, alookup_dictInsert]
          simp
        rw [hlook1] at hlook2
        simp only [Option.some.injEq] at hlook2
        rw [hlook2]
    rw [hfilter]
    simp [hri, hci, DiffMatrix.header_count]
  rw [hA, hB, hC, hD]
  simp

theorem mem_of_alookup {α β : Type} [DecidableEq α] {d : List (α × β)} {k : α}
    {v : β} (h : alookup d k = some v) : (k, v) ∈ d := by
  induction d with
  | nil => cases h
  | cons p rest ih =>
    obtain ⟨k', v'⟩ := p
    by_cases hk : k' = k
    · subst hk
      simp [alookup] at h
      simp [h]
    · simp [alookup, hk] at h
      simp [ih h]

/-- Witness for C6: starting from the empty matrix,
`add_value "k" col "x" DIFFERENCE` then `add_value "k" col "y" OVERRIDE`
leaves exactly one data cell for that (row, column), holding `"y"` with
classification `OVERRIDE`. -/
theorem add_value_overwrites_single_cell_witness :
    DiffMatrix.init.WF ∧
      ∃ ri ci : Int, 0 ≤ ri ∧ 0 ≤ ci ∧
        (((DiffMatrix.init.add_value "k" mdC6w "x" .DIFFERENCE).add_value "k" mdC6w
            "y" .OVERRIDE).table_cells).filter
            (fun c => decide (c.row = ri + 3) && decide (c.column = ci + 1)) =
          [⟨ri + 3, ci + 1, "y", .diff .OVERRIDE⟩] :=
  ⟨DiffMatrix_WF_init,
    add_value_overwrites_single_cell DiffMatrix.init DiffMatrix_WF_init "k" mdC6w
      "x" "y" .DIFFERENCE .OVERRIDE⟩

/-- C7: for a matrix whose four columns were inserted with groups user,
system, override, project in that insertion order, `_reset_lookups` assigns
the column indices 0, 1, 2, 3 to the system, override, project and user
columns respectively, so the traversal emits their group-label header cells
at columns 1, 2, 3, 4; more generally the column assignment is the
enumeration of the fixed priority order system, override, project, user
with insertion order inside each group, and row indices are assigned in
ascending alphabetic order of the row names. -/
theorem reset_lookups_column_row_order
    (mu ms mo mp : NodeMetadata) (m : DiffMatrix)
    (hu : mu.group = .USER) (hs : ms.group = .SYSTEM)
    (ho : mo.group = .OVERRIDE) (hp : mp.group = .PROJECT)
    (hcols : dkeys m.cols = [mu, ms, mo, mp])
    (hreset : m.reset_required = true) :
    (alookup (resetCols m.cols) ms = some 0 ∧
      alookup (resetCols m.cols) mo = some 1 ∧
      alookup (resetCols m.cols) mp = some 2 ∧
      alookup (resetCols m.cols) mu = some 3) ∧
    ((⟨0, 1, "system", .fmt .NORMAL⟩ : CellInfo) ∈ m.table_cells ∧
      (⟨0, 2, "override", .fmt .NORMAL⟩ : CellInfo) ∈ m.table_cells ∧
      (⟨0, 3, "project", .fmt .NORMAL⟩ : CellInfo) ∈ m.table_cells ∧
      (⟨0, 4, "user", .fmt .NORMAL⟩ : CellInfo) ∈ m.table_cells) ∧
    (∀ cols : List (NodeMetadata × Int), (dkeys cols).Nodup →
      ∀ k ∈ dkeys cols, alookup (resetCols cols) k =
        alookup (enumFromPairs 0 (colOrder (dkeys cols))) k) ∧
    (∀ rows : List (String × Int), (dkeys rows).Nodup →
      ∀ k1 k2 : String, k1 ∈ dkeys rows → k2 ∈ dkeys rows → k1 < k2 →
      ∀ j1 j2 : Int, alookup (resetRows rows) k1 = some j1 →
        alookup (resetRows rows) k2 = some j2 → j1 < j2) := by
  have hne : ∀ x y : NodeMetadata, x.group ≠ y.group → x ≠ y := by
    intro x y hg hxy
    exact hg (by rw [hxy])
  have hums : mu ≠ ms := hne _ _ (by rw [hu, hs]; simp)
  have humo : mu ≠ mo := hne _ _ (by rw [hu, ho]; simp)
  have hump : mu ≠ mp := hne _ _ (by rw [hu, hp]; simp)
  have hsmo : ms ≠ mo := hne _ _ (by rw [hs, ho]; simp)
  have hsmp : ms ≠ mp := hne _ _ (by rw [hs, hp]; simp)
  have homp : mo ≠ mp := hne _ _ (by rw [ho, hp]; simp)
  have hnodup : (dkeys m.cols).Nodup := by
    rw [hcols]
    simp [hums, humo, hump, hsmo, hsmp, homp]
  have hcolOrder : colOrder (dkeys m.cols) = [ms, mo, mp, mu] := by
    simp [colOrder, hcols, hu, hs, ho, hp]
  have henum : enumFromPairs 0 (colOrder (dkeys m.cols)) =
      [(ms, 0), (mo, 1), (mp, 2), (mu, 3)] := by
    rw [hcolOrder]
    norm_num [enumFromPairs]
  have henum_nodup : (dkeys (enumFromPairs 0 (colOrder (dkeys m.cols)))).Nodup := by
    rw [dkeys_enumFromPairs, hcolOrder]
    simp [hums.symm, humo.symm, hump.symm, hsmo, hsmp, homp]
  have hms : alookup (resetCols m.cols) ms = some 0 := by
    rw [resetCols_eq, alookup_dictUnion _ _ henum_nodup, henum]
    simp [alookup]
  have hmo : alookup (resetCols m.cols) mo = some 1 := by
    rw [resetCols_eq, alookup_dictUnion _ _ henum_nodup, henum]
    simp [alookup, hsmo]
  have hmp : alookup (resetCols m.cols) mp = some 2 := by
    rw [resetCols_eq, alookup_dictUnion _ _ henum_nodup, henum]
    simp [alookup, hsmp, homp]
  have hmu : alookup (resetCols m.cols) mu = some 3 := by
    rw [resetCols_eq, alookup_dictUnion _ _ henum_nodup, henum]
    simp [alookup, hums.symm, humo.symm, hump.symm]
  refine ⟨⟨hms, hmo, hmp, hmu⟩, ?_,
    fun cols hn k hk => alookup_resetCols cols hn k hk,
    fun rows hn k1 k2 hk1 hk2 hlt j1 j2 h1 h2 =>
      resetRows_monotone rows hn hk1 hk2 hlt h1 h2⟩
  have hcells : ∀ (cv : NodeMetadata × Int), cv ∈ resetCols m.cols →
      (⟨0, cv.2 + 1, cv.1.group.val, .fmt .NORMAL⟩ : CellInfo) ∈ m.table_cells := by
    intro cv hcv
    rw [DiffMatrix.table_cells, hreset]
    simp only [if_true]
    refine List.mem_append_left _ (List.mem_append_right _ ?_)
    exact List.mem_flatMap.2 ⟨cv, hcv, by simp⟩
  refine ⟨?_, ?_, ?_, ?_⟩
  · have := hcells (ms, 0) (mem_of_alookup hms)
    simpa [hs, PresetGroup.val] using this
  · have := hcells (mo, 1) (mem_of_alookup hmo)
    simpa [ho, PresetGroup.val] using this
  · have := hcells (mp, 2) (mem_of_alookup hmp)
    simpa [hp, PresetGroup.val] using this
  · have := hcells (mu, 3) (mem_of_alookup hmu)
    simpa [hu, PresetGroup.val] using this

/-- Witness for C7 on a concrete matrix with columns inserted in group
order user, system, override, project. -/
theorem reset_lookups_column_row_order_witness :
    (muC7w.group = .USER ∧ msC7w.group = .SYSTEM ∧ moC7w.group = .OVERRIDE ∧
      mpC7w.group = .PROJECT ∧ dkeys mC7w.cols = [muC7w, msC7w, moC7w, mpC7w]) ∧
    (alookup (resetCols mC7w.cols) msC7w = some 0 ∧
      alookup (resetCols mC7w.cols) moC7w = some 1 ∧
      alookup (resetCols mC7w.cols) mpC7w = some 2 ∧
      alookup (resetCols mC7w.cols) muC7w = some 3) :=
  ⟨⟨rfl, rfl, rfl, rfl, rfl⟩,
    (reset_lookups_column_row_order muC7w msC7w moC7w mpC7w mC7w rfl rfl rfl rfl
      rfl rfl).1⟩
